import Mathlib

/-!
Verification development for the `gitquery` repository pool and its
concurrent row pipeline (`repository_pool.go`).

The Go code is embedded shallowly:

* `git.PlainOpen` (external go-git) is modelled by a parameter
  `plainOpen : String → Except ε γ` where `γ` is the type of opened
  repository handles and `ε` the type of open errors.
* `ioutil.ReadDir` (external stdlib) is modelled by a parameter
  `readDir : String → Except ε (List FileInfo)`.
* Go's `map[string]string` is modelled by an association list whose keys
  are kept unique by the insert operation; reading an absent key yields
  Go's zero value `""` at the single use site, as in Go.
* Go `error` results are modelled with `Except`; the distinguished value
  `io.EOF` is the constructor `PoolError.eof`.
* `pos int` is modelled on its non-negative range `Nat`; every position
  produced by the code itself (the iterator cursor) is non-negative.
-/

set_option maxHeartbeats 1000000

namespace Gitquery

/-- Repository struct: holds an initialized repository handle and its ID
(`Repository` in the source). `γ` is the external go-git handle type. -/
structure Repository (γ : Type) where
  ID : String
  Repo : γ
  deriving DecidableEq, Repr

/-- NewRepository creates and initializes a new Repository structure. -/
def NewRepository {γ : Type} (id : String) (repo : γ) : Repository γ :=
  { ID := id, Repo := repo }

/-- NewRepositoryFromPath creates a new Repository structure after opening
the path with the external `git.PlainOpen` (modelled by `plainOpen`). -/
def NewRepositoryFromPath {γ ε : Type} (plainOpen : String → Except ε γ)
    (id path : String) : Except ε (Repository γ) :=
  match plainOpen path with
  | .error e => .error e
  | .ok repo => .ok (NewRepository id repo)

/-- Lookup in the model of Go's `map[string]string`
(`value, ok := m[key]` yields `some value` iff the key is present). -/
def lookupPath : List (String × String) → String → Option String
  | [], _ => none
  | (k, v) :: rest, id => if k = id then some v else lookupPath rest id

/-- Write `m[key] = value` in the model of Go's `map[string]string`:
replaces the binding in place if the key is present, otherwise appends it. -/
def insertPath : List (String × String) → String → String → List (String × String)
  | [], id, path => [(id, path)]
  | (k, v) :: rest, id, path =>
    if k = id then (id, path) :: rest else (k, v) :: insertPath rest id path

/-- RepositoryPool holds a pool of git repository paths: the
`repositories` map from id to path and the insertion-ordered `idOrder`. -/
structure RepositoryPool where
  repositories : List (String × String)
  idOrder : List String
  deriving DecidableEq, Repr

/-- NewRepositoryPool initializes a new RepositoryPool. -/
def NewRepositoryPool : RepositoryPool :=
  { repositories := [], idOrder := [] }

/-- Add inserts a new repository in the pool: if the id is absent it is
appended to `idOrder`; the map entry is always (over)written. -/
def RepositoryPool.Add (p : RepositoryPool) (id path : String) : RepositoryPool :=
  let ok := (lookupPath p.repositories id).isSome
  { repositories := insertPath p.repositories id path
  , idOrder := if ok then p.idOrder else p.idOrder ++ [id] }

/-- Model of Go's `filepath.Base` on slash-separated paths: empty path
gives ".", trailing separators are stripped, the last element is
returned, and an all-separator path gives "/". -/
def filepathBase (path : String) : String :=
  if path = "" then "."
  else
    let stripped := (path.toList.reverse.dropWhile (fun c => c = '/')).reverse
    let base := (stripped.reverse.takeWhile (fun c => c ≠ '/')).reverse
    if base = [] then "/" else String.mk base

/-- AddGit checks that the path can be opened as a git repository and adds
it to the pool, using `filepath.Base path` as ID. The Go method mutates
the receiver and returns `(id, error)`; the model returns the new pool
paired with that result. -/
def RepositoryPool.AddGit {γ ε : Type} (plainOpen : String → Except ε γ)
    (p : RepositoryPool) (path : String) : RepositoryPool × Except ε String :=
  match plainOpen path with
  | .error e => (p, .error e)
  | .ok _ =>
    let id := filepathBase path
    (p.Add id path, .ok id)

/-- One entry of an `ioutil.ReadDir` listing: its name and whether it is
a directory. -/
structure FileInfo where
  name : String
  isDir : Bool
  deriving DecidableEq, Repr

/-- Model of `filepath.Join path name` for a directory and one of its
children. Go's `Join` additionally runs `Clean` on the result; for the
arguments produced here (a path and a `ReadDir` entry name, which contains
no separator) the joined string is only used as an opaque key passed to
`plainOpen`/`filepathBase`, where the simple form is equivalent. -/
def filepathJoin (path name : String) : String :=
  path ++ "/" ++ name

/-- AddDir adds all direct subdirectories of `path` as repositories: a
failing listing is returned as the error; each child directory is passed
to `AddGit` and individual `AddGit` failures are discarded. The Go method
returns `error`; the model returns the new pool paired with `Option ε`
(`none` standing for a nil error). -/
def RepositoryPool.AddDir {γ ε : Type} (readDir : String → Except ε (List FileInfo))
    (plainOpen : String → Except ε γ) (p : RepositoryPool) (path : String) :
    RepositoryPool × Option ε :=
  match readDir path with
  | .error e => (p, some e)
  | .ok dirs =>
    (dirs.foldl (fun acc f =>
        if f.isDir then (acc.AddGit plainOpen (filepathJoin path f.name)).1 else acc) p,
     none)

/-- Errors returned by `GetPos`: `eof` is `io.EOF`; `indexPanic` models
the Go runtime panic of `p.idOrder[pos]` when `pos` is out of range of
`idOrder` (reachable only for pool values not built through the API, see
the pool invariant); `openError` wraps the `git.PlainOpen` failure. -/
inductive PoolError (ε : Type) where
  | eof
  | indexPanic
  | openError (e : ε)
  deriving DecidableEq, Repr

/-- GetPos retrieves a repository at a given position: `io.EOF` if the
position is at or beyond the size of the `repositories` map, the id at
that ordinal position otherwise, `io.EOF` again if that id is the empty
string, and otherwise a freshly opened `Repository` for the mapped path
(or the open error). Reading the map at a registered id uses `getD ""`,
matching Go's zero value for an absent key. -/
def RepositoryPool.GetPos {γ ε : Type} (plainOpen : String → Except ε γ)
    (p : RepositoryPool) (pos : Nat) : Except (PoolError ε) (Repository γ) :=
  if pos ≥ p.repositories.length then .error .eof
  else
    match p.idOrder[pos]? with
    | none => .error .indexPanic
    | some id =>
      if id = "" then .error .eof
      else
        match NewRepositoryFromPath plainOpen id ((lookupPath p.repositories id).getD "") with
        | .error e => .error (.openError e)
        | .ok repo => .ok repo

/-- RepositoryIter iterates over all repositories in the pool: a cursor
position and the pool it reads (a shared pointer in Go; the pool is not
mutated through it). -/
structure RepositoryIter where
  pos : Nat
  pool : RepositoryPool
  deriving DecidableEq, Repr

/-- RepoIter creates a new Repository iterator at position 0 (the Go
method also returns an always-nil error, omitted here). -/
def RepositoryPool.RepoIter (p : RepositoryPool) : RepositoryIter :=
  { pos := 0, pool := p }

/-- Next retrieves the next Repository via `GetPos` at the current
position: on success the position advances by one; on any error the
cursor is unchanged and the error is returned. The Go method mutates the
iterator; the model returns the new iterator paired with the result. -/
def RepositoryIter.Next {γ ε : Type} (plainOpen : String → Except ε γ)
    (i : RepositoryIter) : RepositoryIter × Except (PoolError ε) (Repository γ) :=
  match i.pool.GetPos plainOpen i.pos with
  | .error e => (i, .error e)
  | .ok r => ({ i with pos := i.pos + 1 }, .ok r)

/-- Result of the (n+1)-th consecutive call to `RepositoryIter.Next`
starting from iterator `i` (threading the mutated cursor). -/
def RepositoryIter.nextN {γ ε : Type} (plainOpen : String → Except ε γ) :
    Nat → RepositoryIter → RepositoryIter × Except (PoolError ε) (Repository γ)
  | 0, i => i.Next plainOpen
  | n + 1, i => RepositoryIter.nextN plainOpen n (i.Next plainOpen).1

/-! ### Basic lemmas about the map model -/

theorem lookupPath_insertPath_self (m : List (String × String)) (id path : String) :
    lookupPath (insertPath m id path) id = some path := by
  induction m with
  | nil => simp [insertPath, lookupPath]
  | cons kv rest ih =>
    obtain ⟨k, v⟩ := kv
    by_cases h : k = id
    · simp [insertPath, lookupPath, h]
    · simp [insertPath, lookupPath, h, ih]

theorem lookupPath_eq_none_iff (m : List (String × String)) (id : String) :
    lookupPath m id = none ↔ id ∉ m.map Prod.fst := by
  induction m with
  | nil => simp [lookupPath]
  | cons kv rest ih =>
    obtain ⟨k, v⟩ := kv
    by_cases h : k = id
    · simp [lookupPath, h]
    · simp [lookupPath, h, ih, Ne.symm h]

theorem lookupPath_isSome_iff (m : List (String × String)) (id : String) :
    (lookupPath m id).isSome = true ↔ id ∈ m.map Prod.fst := by
  induction m with
  | nil => simp [lookupPath]
  | cons kv rest ih =>
    obtain ⟨k, v⟩ := kv
    by_cases h : k = id
    · simp [lookupPath, h]
    · simp [lookupPath, h, ih, Ne.symm h]

theorem insertPath_map_fst_of_mem (m : List (String × String)) (id path : String)
    (h : id ∈ m.map Prod.fst) :
    (insertPath m id path).map Prod.fst = m.map Prod.fst := by
  induction m with
  | nil => simp at h
  | cons kv rest ih =>
    obtain ⟨k, v⟩ := kv
    by_cases hk : k = id
    · simp [insertPath, hk]
    · simp only [List.map_cons] at h
      simp [insertPath, hk, ih (by simpa [Ne.symm hk] using h)]

theorem insertPath_map_fst_of_not_mem (m : List (String × String)) (id path : String)
    (h : id ∉ m.map Prod.fst) :
    (insertPath m id path).map Prod.fst = m.map Prod.fst ++ [id] := by
  induction m with
  | nil => simp [insertPath]
  | cons kv rest ih =>
    obtain ⟨k, v⟩ := kv
    simp only [List.map_cons, List.mem_cons] at h
    push_neg at h
    simp [insertPath, Ne.symm h.1, ih h.2]

/-! ### The pool well-formedness invariant and reachability -/

/-- Well-formedness of a pool: the keys of the `repositories` map, in
insertion order, are exactly `idOrder`, and `idOrder` has no duplicates. -/
def PoolWF (p : RepositoryPool) : Prop :=
  p.repositories.map Prod.fst = p.idOrder ∧ p.idOrder.Nodup

/-- Pools reachable from `NewRepositoryPool` by any sequence of `Add`,
`AddGit` and `AddDir` calls (each call may use different external
`plainOpen`/`readDir` behaviour, as the filesystem may change between
calls). -/
inductive Reachable : RepositoryPool → Prop where
  | new : Reachable NewRepositoryPool
  | add (p : RepositoryPool) (id path : String) :
      Reachable p → Reachable (p.Add id path)
  | addGit {γ ε : Type} (p : RepositoryPool) (plainOpen : String → Except ε γ)
      (path : String) : Reachable p → Reachable (p.AddGit plainOpen path).1
  | addDir {γ ε : Type} (p : RepositoryPool) (readDir : String → Except ε (List FileInfo))
      (plainOpen : String → Except ε γ) (path : String) :
      Reachable p → Reachable (p.AddDir readDir plainOpen path).1

theorem poolWF_add (p : RepositoryPool) (id path : String) (h : PoolWF p) :
    PoolWF (p.Add id path) := by
  obtain ⟨hkeys, hnd⟩ := h
  by_cases hm : id ∈ p.repositories.map Prod.fst
  · have hs : (lookupPath p.repositories id).isSome = true :=
      (lookupPath_isSome_iff _ _).mpr hm
    constructor
    · simp only [RepositoryPool.Add, hs, if_true]
      rw [insertPath_map_fst_of_mem _ _ _ hm, hkeys]
    · simpa [RepositoryPool.Add, hs] using hnd
  · have hs : (lookupPath p.repositories id).isSome = false := by
      rw [Bool.eq_false_iff]
      intro hc
      exact hm ((lookupPath_isSome_iff _ _).mp hc)
    constructor
    · simp only [RepositoryPool.Add, hs, Bool.false_eq_true, if_false]
      rw [insertPath_map_fst_of_not_mem _ _ _ hm, hkeys]
    · have : id ∉ p.idOrder := hkeys ▸ hm
      simp [RepositoryPool.Add, hs, List.nodup_append, hnd, this]

theorem poolWF_addGit {γ ε : Type} (p : RepositoryPool)
    (plainOpen : String → Except ε γ) (path : String) (h : PoolWF p) :
    PoolWF (p.AddGit plainOpen path).1 := by
  unfold RepositoryPool.AddGit
  cases plainOpen path with
  | error e => exact h
  | ok g => exact poolWF_add _ _ _ h

theorem poolWF_addDir {γ ε : Type} (p : RepositoryPool)
    (readDir : String → Except ε (List FileInfo)) (plainOpen : String → Except ε γ)
    (path : String) (h : PoolWF p) : PoolWF (p.AddDir readDir plainOpen path).1 := by
  unfold RepositoryPool.AddDir
  cases readDir path with
  | error e => exact h
  | ok dirs =>
    simp only
    induction dirs generalizing p with
    | nil => exact h
    | cons f rest ih =>
      simp only [List.foldl_cons]
      by_cases hd : f.isDir
      · simpa [hd] using ih _ (poolWF_addGit _ plainOpen _ h)
      · simpa [hd] using ih _ h

theorem reachable_wf (p : RepositoryPool) (hp : Reachable p) : PoolWF p := by
  induction hp with
  | new => exact ⟨rfl, List.nodup_nil⟩
  | add q id path _ ih => exact poolWF_add q id path ih
  | addGit q plainOpen path _ ih => exact poolWF_addGit q plainOpen path ih
  | addDir q readDir plainOpen path _ ih => exact poolWF_addDir q readDir plainOpen path ih

/-- Helper: the out-of-bounds branch of `GetPos`. -/
theorem getPos_eof_of_le {γ ε : Type} (plainOpen : String → Except ε γ)
    (p : RepositoryPool) (pos : Nat) (h : p.repositories.length ≤ pos) :
    p.GetPos plainOpen pos = .error .eof := by
  unfold RepositoryPool.GetPos
  rw [if_pos h]

/-- Helper: the empty-identifier branch of `GetPos`. -/
theorem getPos_empty_id {γ ε : Type} (plainOpen : String → Except ε γ)
    (p : RepositoryPool) (pos : Nat) (h1 : pos < p.repositories.length)
    (h2 : p.idOrder[pos]? = some "") :
    p.GetPos plainOpen pos = .error .eof := by
  unfold RepositoryPool.GetPos
  rw [if_neg (by omega), h2]
  simp

/-- Helper: evaluation of `GetPos` at an in-bounds position holding a
non-empty identifier: the mapped path is opened. -/
theorem getPos_eval {γ ε : Type} (plainOpen : String → Except ε γ) (p : RepositoryPool)
    (pos : Nat) (id : String) (hlt : pos < p.repositories.length)
    (hget : p.idOrder[pos]? = some id) (hid : id ≠ "") :
    p.GetPos plainOpen pos =
      match plainOpen ((lookupPath p.repositories id).getD "") with
      | .error e => .error (.openError e)
      | .ok g => .ok (NewRepository id g) := by
  unfold RepositoryPool.GetPos
  rw [if_neg (by omega), hget]
  cases h : plainOpen ((lookupPath p.repositories id).getD "") <;>
    simp [hid, NewRepositoryFromPath, h]

/-- Helper: `Add` does not extend `idOrder` when the identifier is
already a key of the map. -/
theorem add_idOrder_of_mem (p : RepositoryPool) (id path : String)
    (h : (lookupPath p.repositories id).isSome = true) :
    (p.Add id path).idOrder = p.idOrder := by
  unfold RepositoryPool.Add
  simp [h]

/-! ### Claim theorems about the pool -/

/-- C3: for every pool (including the empty pool) and every position at or
beyond the number of registered identifiers (the size of the id-to-path
map, which is what the code compares against), `GetPos` returns the
`io.EOF` sentinel and no repository. -/
theorem c3_getPos_out_of_bounds_eof {γ ε : Type} (plainOpen : String → Except ε γ)
    (p : RepositoryPool) (pos : Nat) (h : p.repositories.length ≤ pos) :
    p.GetPos plainOpen pos = .error .eof :=
  getPos_eof_of_le plainOpen p pos h

theorem c3_witness :
    NewRepositoryPool.repositories.length ≤ 0 ∧
    NewRepositoryPool.GetPos (fun _ => (.ok () : Except Unit Unit)) 0 = .error .eof :=
  ⟨by decide, c3_getPos_out_of_bounds_eof _ NewRepositoryPool 0 (by decide)⟩

/-- C10: if the identifier stored at an in-bounds ordinal position is the
empty string, `GetPos` returns `io.EOF` without consulting `plainOpen`
(the conclusion holds for every `plainOpen`), even though the position is
within bounds and the empty identifier is registered. -/
theorem c10_getPos_empty_id_eof {γ ε : Type} (plainOpen : String → Except ε γ)
    (p : RepositoryPool) (pos : Nat) (h1 : pos < p.repositories.length)
    (h2 : p.idOrder[pos]? = some "") :
    p.GetPos plainOpen pos = .error .eof := by
  unfold RepositoryPool.GetPos
  rw [if_neg (by omega), h2]
  simp

theorem c10_witness :
    (0 < (NewRepositoryPool.Add "" "somewhere").repositories.length) ∧
    (NewRepositoryPool.Add "" "somewhere").idOrder[0]? = some "" ∧
    (NewRepositoryPool.Add "" "somewhere").GetPos
      (fun _ => (.ok () : Except Unit Unit)) 0 = .error .eof :=
  ⟨by decide, by decide,
    c10_getPos_empty_id_eof _ _ 0 (by decide) (by decide)⟩

/-- C7: `AddGit` on a path that fails to open returns the open error and
leaves the pool unchanged; on a path that opens it registers the path
under the identifier `filepath.Base path` (the location's final path
segment), returns that identifier with no error, and the identifier then
maps to the path. -/
theorem c7_addGit {γ ε : Type} (plainOpen : String → Except ε γ)
    (p : RepositoryPool) (path : String) :
    (∀ e, plainOpen path = .error e → p.AddGit plainOpen path = (p, .error e)) ∧
    (∀ g, plainOpen path = .ok g →
      p.AddGit plainOpen path = (p.Add (filepathBase path) path, .ok (filepathBase path)) ∧
      lookupPath (p.AddGit plainOpen path).1.repositories (filepathBase path) = some path) := by
  constructor
  · intro e he
    unfold RepositoryPool.AddGit
    rw [he]
  · intro g hg
    unfold RepositoryPool.AddGit
    rw [hg]
    exact ⟨rfl, lookupPath_insertPath_self _ _ _⟩

def po7 : String → Except Nat Unit :=
  fun s => if s = "r/valid" then .ok () else .error 7

theorem c7_witness :
    NewRepositoryPool.AddGit po7 "bad" = (NewRepositoryPool, .error 7) ∧
    NewRepositoryPool.AddGit po7 "r/valid"
      = (NewRepositoryPool.Add (filepathBase "r/valid") "r/valid",
         .ok (filepathBase "r/valid")) :=
  ⟨(c7_addGit po7 NewRepositoryPool "bad").1 7 rfl,
   ((c7_addGit po7 NewRepositoryPool "r/valid").2 () rfl).1⟩

/-- C6: `RepositoryIter.Next` calls `GetPos` at the current position; on
success it advances the position by exactly one (pool unchanged) and
returns the repository; on `io.EOF` it returns `io.EOF` without
advancing, and every further call keeps returning `io.EOF`; on any other
error it returns that error without advancing. -/
theorem c6_repositoryIter_next {γ ε : Type} (plainOpen : String → Except ε γ)
    (i : RepositoryIter) :
    (∀ r : Repository γ, i.pool.GetPos plainOpen i.pos = .ok r →
        i.Next plainOpen = ({ pos := i.pos + 1, pool := i.pool }, .ok r)) ∧
    (i.pool.GetPos plainOpen i.pos = .error .eof →
        i.Next plainOpen = (i, .error .eof) ∧
        ∀ n, i.nextN plainOpen n = (i, .error (.eof : PoolError ε))) ∧
    (∀ e : PoolError ε, i.pool.GetPos plainOpen i.pos = .error e →
        i.Next plainOpen = (i, .error e)) := by
  refine ⟨?_, ?_, ?_⟩
  · intro r hr
    unfold RepositoryIter.Next
    rw [hr]
  · intro he
    have hnext : i.Next plainOpen = (i, .error .eof) := by
      unfold RepositoryIter.Next
      rw [he]
    refine ⟨hnext, ?_⟩
    intro n
    induction n with
    | zero => exact hnext
    | succ m ih =>
      show RepositoryIter.nextN plainOpen m (i.Next plainOpen).1 = _
      rw [hnext]
      exact ih
  · intro e he
    unfold RepositoryIter.Next
    rw [he]

theorem c6_witness :
    NewRepositoryPool.RepoIter.pool.GetPos (fun _ => (.ok () : Except Unit Unit))
        NewRepositoryPool.RepoIter.pos = .error .eof ∧
    NewRepositoryPool.RepoIter.nextN (fun _ => (.ok () : Except Unit Unit)) 3
      = (NewRepositoryPool.RepoIter, .error .eof) :=
  ⟨rfl,
   ((c6_repositoryIter_next (fun _ => (.ok () : Except Unit Unit))
      NewRepositoryPool.RepoIter).2.1 rfl).2 3⟩

/-- C4: every pool reachable through the API satisfies the co-maintenance
invariant: every ordered identifier is present in the mapping, the order
has no duplicates, the mapping's size equals the order's length, and
consequently `GetPos`'s bound check against the mapping's size keeps its
index into `idOrder` in bounds (no `indexPanic` is possible). -/
theorem c4_pool_invariant (p : RepositoryPool) (hp : Reachable p) :
    (∀ id ∈ p.idOrder, (lookupPath p.repositories id).isSome = true) ∧
    p.idOrder.Nodup ∧
    p.repositories.length = p.idOrder.length ∧
    ∀ pos, pos < p.repositories.length →
      pos < p.idOrder.length ∧
      ∀ {γ ε : Type} (plainOpen : String → Except ε γ),
        p.GetPos plainOpen pos ≠ .error .indexPanic := by
  obtain ⟨hkeys, hnd⟩ := reachable_wf p hp
  refine ⟨?_, hnd, ?_, ?_⟩
  · intro id hid
    rw [lookupPath_isSome_iff, hkeys]
    exact hid
  · conv_rhs => rw [← hkeys]
    rw [List.length_map]
  · intro pos hpos
    have hlt : pos < p.idOrder.length := by
      rw [← hkeys, List.length_map]
      exact hpos
    refine ⟨hlt, ?_⟩
    intro γ ε plainOpen
    have hget : p.idOrder[pos]? = some p.idOrder[pos] := List.getElem?_eq_getElem hlt
    by_cases hid : p.idOrder[pos] = ""
    · rw [getPos_empty_id plainOpen p pos hpos (hid ▸ hget)]
      simp
    · rw [getPos_eval plainOpen p pos p.idOrder[pos] hpos hget hid]
      cases h : plainOpen ((lookupPath p.repositories p.idOrder[pos]).getD "") <;> simp [h]

def pool4 : RepositoryPool := (NewRepositoryPool.Add "a" "x").Add "b" "y"

theorem reach4 : Reachable pool4 :=
  Reachable.add _ "b" "y" (Reachable.add _ "a" "x" Reachable.new)

theorem c4_witness :
    (lookupPath pool4.repositories "b").isSome = true ∧
    pool4.repositories.length = pool4.idOrder.length ∧
    pool4.GetPos (fun _ => (.ok () : Except Unit Unit)) 1 ≠ .error .indexPanic :=
  ⟨(c4_pool_invariant pool4 reach4).1 "b" (by decide),
   (c4_pool_invariant pool4 reach4).2.2.1,
   ((c4_pool_invariant pool4 reach4).2.2.2 1 (by decide)).2 _⟩

/-- C5 (amended): for every reachable pool and every non-empty
identifier, re-adding the identifier with a second location does not
lengthen the ordered sequence, and a subsequent `GetPos` at that
identifier's ordinal position opens the second location (the result is
exactly what opening `loc2` yields, not `loc1`). The unrestricted claim
is false for the empty identifier, where `GetPos` returns `io.EOF`
without opening anything (see the counterexample below). -/
theorem c5_readd_same_id {γ ε : Type} (plainOpen : String → Except ε γ)
    (p : RepositoryPool) (hp : Reachable p) (id loc1 loc2 : String)
    (hne : loc2 ≠ loc1) (hid : id ≠ "") (pos : Nat)
    (hpos : ((p.Add id loc1).Add id loc2).idOrder[pos]? = some id) :
    ((p.Add id loc1).Add id loc2).idOrder.length = (p.Add id loc1).idOrder.length ∧
    ((p.Add id loc1).Add id loc2).GetPos plainOpen pos =
      (match plainOpen loc2 with
       | .error e => .error (.openError e)
       | .ok g => .ok (NewRepository id g)) := by
  have hlook1 : lookupPath (p.Add id loc1).repositories id = some loc1 :=
    lookupPath_insertPath_self _ _ _
  have hs : (lookupPath (p.Add id loc1).repositories id).isSome = true := by
    rw [hlook1]; rfl
  have horder : ((p.Add id loc1).Add id loc2).idOrder = (p.Add id loc1).idOrder :=
    add_idOrder_of_mem _ _ _ hs
  have hwf2 : PoolWF ((p.Add id loc1).Add id loc2) :=
    poolWF_add _ _ _ (poolWF_add _ _ _ (reachable_wf p hp))
  have hlen2 : ((p.Add id loc1).Add id loc2).repositories.length
      = ((p.Add id loc1).Add id loc2).idOrder.length := by
    conv_rhs => rw [← hwf2.1]
    rw [List.length_map]
  have hplt : pos < ((p.Add id loc1).Add id loc2).idOrder.length := by
    have := List.getElem?_eq_some.mp hpos
    exact this.1
  have hlook2 : lookupPath ((p.Add id loc1).Add id loc2).repositories id = some loc2 :=
    lookupPath_insertPath_self _ _ _
  refine ⟨by rw [horder], ?_⟩
  rw [getPos_eval plainOpen _ pos id (by omega) hpos hid, hlook2, Option.getD_some]

def po5 : String → Except Nat Unit :=
  fun s => if s = "y" then .ok () else .error 5

theorem c5_witness :
    ((NewRepositoryPool.Add "a" "x").Add "a" "y").idOrder.length
        = (NewRepositoryPool.Add "a" "x").idOrder.length ∧
    ((NewRepositoryPool.Add "a" "x").Add "a" "y").GetPos po5 0 =
      (match po5 "y" with
       | .error e => .error (.openError e)
       | .ok g => .ok (NewRepository "a" g)) :=
  c5_readd_same_id po5 NewRepositoryPool Reachable.new "a" "x" "y"
    (by decide) (by decide) 0 (by decide)

/-- C5 counterexample: the claim as frozen fails at the empty
identifier. After `Add "" "x"` then `Add "" "y"`, the ordinal position 0
holds `""` (in bounds, registered in the mapping) and the second
location "y" would open successfully, yet `GetPos` returns `io.EOF` and
does not open the second location. -/
theorem c5_counterexample :
    ((NewRepositoryPool.Add "" "x").Add "" "y").idOrder[0]? = some "" ∧
    ((NewRepositoryPool.Add "" "x").Add "" "y").GetPos po5 0 = .error .eof ∧
    ((NewRepositoryPool.Add "" "x").Add "" "y").GetPos po5 0 ≠
      (match po5 "y" with
       | .error e => .error (.openError e)
       | .ok g => .ok (NewRepository "" g)) :=
  ⟨rfl, rfl, fun h => Except.noConfusion h⟩

/-! ### AddDir: registration of exactly the valid subdirectories (C8) -/

/-- Whether `plainOpen` succeeds on a path (the validity test `AddGit`
performs). -/
def opensOk {γ ε : Type} (plainOpen : String → Except ε γ) (path : String) : Bool :=
  match plainOpen path with
  | .ok _ => true
  | .error _ => false

theorem addGit_fst {γ ε : Type} (plainOpen : String → Except ε γ)
    (p : RepositoryPool) (path : String) :
    (p.AddGit plainOpen path).1
      = if opensOk plainOpen path then p.Add (filepathBase path) path else p := by
  unfold RepositoryPool.AddGit opensOk
  cases plainOpen path <;> simp

theorem addDir_foldl_eq {γ ε : Type} (plainOpen : String → Except ε γ) (path : String) :
    ∀ (dirs : List FileInfo) (p : RepositoryPool),
      dirs.foldl (fun acc f =>
          if f.isDir then (acc.AddGit plainOpen (filepathJoin path f.name)).1 else acc) p
      = (dirs.filter (fun f => f.isDir && opensOk plainOpen (filepathJoin path f.name))).foldl
          (fun acc f =>
            acc.Add (filepathBase (filepathJoin path f.name)) (filepathJoin path f.name)) p := by
  intro dirs
  induction dirs with
  | nil => intro p; rfl
  | cons f rest ih =>
    intro p
    by_cases hd : f.isDir
    · rw [List.foldl_cons, if_pos hd, addGit_fst]
      by_cases ho : opensOk plainOpen (filepathJoin path f.name)
      · rw [if_pos ho, List.filter_cons_of_pos (by simp [hd, ho]), List.foldl_cons]
        exact ih _
      · rw [if_neg ho, List.filter_cons_of_neg (by simp [ho])]
        exact ih p
    · rw [List.foldl_cons, if_neg hd, List.filter_cons_of_neg (by simp [hd])]
      exact ih p

theorem foldl_add_idOrder :
    ∀ (l : List (String × String)) (p : RepositoryPool),
      (l.map Prod.fst).Nodup →
      (∀ id ∈ l.map Prod.fst, id ∉ p.repositories.map Prod.fst) →
      (l.foldl (fun acc e => acc.Add e.1 e.2) p).idOrder = p.idOrder ++ l.map Prod.fst := by
  intro l
  induction l with
  | nil => intro p _ _; simp
  | cons e rest ih =>
    intro p hnd hdisj
    simp only [List.map_cons, List.nodup_cons] at hnd
    have he : e.1 ∉ p.repositories.map Prod.fst := hdisj e.1 (by simp)
    have hlook : lookupPath p.repositories e.1 = none := (lookupPath_eq_none_iff _ _).mpr he
    have hs : (lookupPath p.repositories e.1).isSome = false := by rw [hlook]; rfl
    have hord : (p.Add e.1 e.2).idOrder = p.idOrder ++ [e.1] := by
      simp [RepositoryPool.Add, hs]
    have hkeys : (p.Add e.1 e.2).repositories.map Prod.fst
        = p.repositories.map Prod.fst ++ [e.1] :=
      insertPath_map_fst_of_not_mem _ _ _ he
    simp only [List.foldl_cons]
    rw [ih (p.Add e.1 e.2) hnd.2 ?_, hord]
    · simp
    · intro id hidr
      rw [hkeys, List.mem_append]
      push_neg
      refine ⟨hdisj id (by simp [hidr]), ?_⟩
      simp only [List.mem_singleton]
      intro hc
      exact hnd.1 (hc ▸ hidr)

/-- C8: `AddDir` fails exactly when the directory listing itself fails
(and then leaves the pool unchanged); on a successful listing it returns
no error and registers exactly the child directories that open as valid
repositories, silently skipping the rest; when the registered identifiers
are fresh and distinct the ordered sequence grows by exactly their
number. -/
theorem c8_addDir {γ ε : Type} (readDir : String → Except ε (List FileInfo))
    (plainOpen : String → Except ε γ) (p : RepositoryPool) (path : String) :
    (∀ e, readDir path = .error e → p.AddDir readDir plainOpen path = (p, some e)) ∧
    (∀ entries, readDir path = .ok entries →
      (p.AddDir readDir plainOpen path).2 = none ∧
      (p.AddDir readDir plainOpen path).1 =
        (entries.filter (fun f => f.isDir && opensOk plainOpen (filepathJoin path f.name))).foldl
          (fun acc f =>
            acc.Add (filepathBase (filepathJoin path f.name)) (filepathJoin path f.name)) p ∧
      (((entries.filter (fun f => f.isDir && opensOk plainOpen (filepathJoin path f.name))).map
          (fun f => filepathBase (filepathJoin path f.name))).Nodup →
       (∀ id ∈ (entries.filter
            (fun f => f.isDir && opensOk plainOpen (filepathJoin path f.name))).map
            (fun f => filepathBase (filepathJoin path f.name)),
          id ∉ p.repositories.map Prod.fst) →
       (p.AddDir readDir plainOpen path).1.idOrder
         = p.idOrder ++ (entries.filter
              (fun f => f.isDir && opensOk plainOpen (filepathJoin path f.name))).map
              (fun f => filepathBase (filepathJoin path f.name)))) := by
  constructor
  · intro e he
    unfold RepositoryPool.AddDir
    rw [he]
  · intro entries hok
    have hfst : (p.AddDir readDir plainOpen path).1 =
        (entries.filter (fun f => f.isDir && opensOk plainOpen (filepathJoin path f.name))).foldl
          (fun acc f =>
            acc.Add (filepathBase (filepathJoin path f.name)) (filepathJoin path f.name)) p := by
      unfold RepositoryPool.AddDir
      rw [hok]
      exact addDir_foldl_eq plainOpen path entries p
    refine ⟨by unfold RepositoryPool.AddDir; rw [hok], hfst, ?_⟩
    intro hnd hdisj
    rw [hfst]
    have hmapfold :
        (entries.filter (fun f => f.isDir && opensOk plainOpen (filepathJoin path f.name))).foldl
          (fun acc f =>
            acc.Add (filepathBase (filepathJoin path f.name)) (filepathJoin path f.name)) p
        = (((entries.filter (fun f => f.isDir && opensOk plainOpen (filepathJoin path f.name))).map
            (fun f => (filepathBase (filepathJoin path f.name), filepathJoin path f.name))).foldl
            (fun acc e => acc.Add e.1 e.2) p) := by
      rw [List.foldl_map]
    rw [hmapfold, foldl_add_idOrder _ p (by simpa [Function.comp] using hnd)
      (by simpa [Function.comp] using hdisj)]
    simp [Function.comp]

def rd8 : String → Except Nat (List FileInfo) :=
  fun s => if s = "d" then .ok [⟨"r1", true⟩, ⟨"bad", true⟩, ⟨"f", false⟩] else .error 8

def po8 : String → Except Nat Unit :=
  fun s => if s = "d/r1" then .ok () else .error 8

theorem c8_witness :
    NewRepositoryPool.AddDir rd8 po8 "nosuch" = (NewRepositoryPool, some 8) ∧
    (NewRepositoryPool.AddDir rd8 po8 "d").2 = none ∧
    (NewRepositoryPool.AddDir rd8 po8 "d").1.idOrder
      = NewRepositoryPool.idOrder
          ++ (([⟨"r1", true⟩, ⟨"bad", true⟩, ⟨"f", false⟩] : List FileInfo).filter
              (fun f => f.isDir && opensOk po8 (filepathJoin "d" f.name))).map
              (fun f => filepathBase (filepathJoin "d" f.name)) :=
  ⟨(c8_addDir rd8 po8 NewRepositoryPool "nosuch").1 8 rfl,
   ((c8_addDir rd8 po8 NewRepositoryPool "d").2 _ rfl).1,
   ((c8_addDir rd8 po8 NewRepositoryPool "d").2 _ rfl).2.2 (by decide) (by decide)⟩

/-!
### The concurrent row pipeline (`rowRepoIter`)

`NewRowRepoIter` starts one feeder goroutine (`fillRepoChannel`),
`runtime.NumCPU()` worker goroutines (`rowReader`) and a join goroutine
that closes the unbuffered `rows` channel once every worker has returned.
The consumer repeatedly calls `Next`, which receives from `rows` and,
once `rows` is closed and drained, receives once from the unbuffered
`err` channel.

The embedding is a small-step transition system over `PState`. The
unbuffered channels `repos`, `rows` and `err` are modelled as rendezvous:
a blocked sender is part of the sending goroutine's state, and the
matching receive is a single transition that moves both parties. The
`done` channel is only ever closed (a broadcast flag), so it is a
boolean. `sync.WaitGroup`+`close(rows)` is the `joinClose` transition,
enabled once every worker has returned.

The `RowRepoIter` capability (`NewIterator`/`Next`/`Close`) is modelled
by a deterministic per-repository factory
`factory : Repository γ → Except ε' (Producer ρ ε')`: a constructed
producer emits `rows` in order and then terminates with `term`
(`io.EOF` or an error). `Close` releases external resources only and has
no observable effect on pipeline state.
-/

/-- Terminal outcome of one producer's row stream: clean exhaustion
(`io.EOF`) or a mid-stream error. -/
inductive Term (ε' : Type) where
  | eof
  | err (e : ε')
  deriving DecidableEq, Repr

/-- A deterministic row producer for one repository: the rows it emits in
order, then its terminal outcome. -/
structure Producer (ρ ε' : Type) where
  rows : List ρ
  term : Term ε'
  deriving DecidableEq, Repr

/-- Value carried by the `err` channel, as read by the consumer:
`io.EOF` sent by the feeder on clean exhaustion, an iterator error
forwarded by the feeder, or a producer error sent by a worker. -/
inductive PipeError (ε ε' : Type) where
  | eofSignal
  | pool (e : ε)
  | producer (e : ε')
  deriving DecidableEq, Repr

/-- State of the feeder goroutine (`fillRepoChannel`). -/
inductive FeederSt (γ ε : Type) where
  /-- At the top of the loop, about to check `done` and call `Next`. -/
  | run (it : RepositoryIter)
  /-- Blocked sending a repository on the unbuffered `repos` channel. -/
  | sendRepo (r : Repository γ) (it : RepositoryIter)
  /-- Closed `repos`; blocked sending `io.EOF` on the `err` channel. -/
  | sendEOF
  /-- Closed `done` and `repos`; blocked sending the iterator's open
  error on the `err` channel. -/
  | sendErr (e : ε)
  /-- Go runtime panic out of `GetPos` (`indexPanic`); unreachable for
  pools built through the API. -/
  | crashed
  /-- Returned. -/
  | exited
  deriving DecidableEq, Repr

/-- State of one worker goroutine (`rowReader`). -/
inductive WorkerSt (ρ ε' : Type) where
  /-- At `for repo := range i.repos`, waiting to receive. -/
  | wait
  /-- `NewIterator` returned an error; the discarded error left `iter`
  nil, and the worker is about to call a method on it. -/
  | nilProducer
  /-- Driving the producer for repository `rid`: remaining rows and the
  terminal outcome; about to check `done` and call the producer's
  `Next`. -/
  | run (rid : String) (rows : List ρ) (t : Term ε')
  /-- Blocked sending a produced row on the unbuffered `rows` channel. -/
  | sendRow (rid : String) (row : ρ) (rows : List ρ) (t : Term ε')
  /-- Blocked sending a producer error on the unbuffered `err` channel
  (this happens before `close(done)` and before `wg.Done()`). -/
  | sendErr (e : ε')
  /-- Error delivered; about to `close(done)` and return. -/
  | errSent
  /-- Nil-interface method call: Go runtime panic. -/
  | panicked
  /-- Returned (deferred `wg.Done()` has run). -/
  | exited
  deriving DecidableEq, Repr

/-- State of the consumer of `rowRepoIter.Next`. -/
inductive ConsumerSt (ε ε' : Type) where
  /-- Repeatedly calling `Next` and draining rows. -/
  | consume
  /-- `Next` returned `(nil, e)` after `rows` was closed and drained. -/
  | done (e : PipeError ε ε')
  deriving DecidableEq, Repr

/-- Global state of one pipeline run. `consumed` records, in delivery
order, each row the consumer received paired with the ID of the
repository whose producer emitted it (the ID is bookkeeping for the
statement of ordering properties; the consumer itself only sees the
row). -/
structure PState (γ ε ρ ε' : Type) where
  feeder : FeederSt γ ε
  workers : List (WorkerSt ρ ε')
  reposClosed : Bool
  doneClosed : Bool
  rowsClosed : Bool
  consumed : List (String × ρ)
  consumer : ConsumerSt ε ε'
  deriving DecidableEq, Repr

/-- Worker state right after receiving repository `r` from the `repos`
channel: `iter, _ := i.iter.NewIterator(repo)` discards the error; on
failure the nil `iter` is still used. -/
def recvWorker {γ ρ ε' : Type} (factory : Repository γ → Except ε' (Producer ρ ε'))
    (r : Repository γ) : WorkerSt ρ ε' :=
  match factory r with
  | .error _ => .nilProducer
  | .ok p => .run r.ID p.rows p.term

/-- Initial state of a pipeline run over `pool` with `W` workers
(`W = runtime.NumCPU()`). -/
def initState (γ ε ρ ε' : Type) (pool : RepositoryPool) (W : Nat) : PState γ ε ρ ε' :=
  { feeder := .run pool.RepoIter
  , workers := List.replicate W .wait
  , reposClosed := false
  , doneClosed := false
  , rowsClosed := false
  , consumed := []
  , consumer := .consume }

/-- One interleaving step of the pipeline. Each constructor is one atomic
action of one goroutine (channel rendezvous move both endpoints). -/
inductive Step {γ ε ρ ε' : Type} (plainOpen : String → Except ε γ)
    (factory : Repository γ → Except ε' (Producer ρ ε')) :
    PState γ ε ρ ε' → PState γ ε ρ ε' → Prop where
  /-- Feeder: `case <-i.done: return` (it closes nothing). -/
  | feederDone (s : PState γ ε ρ ε') (it : RepositoryIter) :
      s.feeder = .run it → s.doneClosed = true →
      Step plainOpen factory s { s with feeder := .exited }
  /-- Feeder: iterator yields a repository; start sending it on `repos`. -/
  | feederOk (s : PState γ ε ρ ε') (it it2 : RepositoryIter) (r : Repository γ) :
      s.feeder = .run it → s.doneClosed = false →
      it.Next plainOpen = (it2, .ok r) →
      Step plainOpen factory s { s with feeder := .sendRepo r it2 }
  /-- Feeder: iterator returns `io.EOF`; close `repos`, start sending
  `io.EOF` on `err`. -/
  | feederEOF (s : PState γ ε ρ ε') (it it2 : RepositoryIter) :
      s.feeder = .run it → s.doneClosed = false →
      it.Next plainOpen = (it2, .error .eof) →
      Step plainOpen factory s { s with feeder := .sendEOF, reposClosed := true }
  /-- Feeder: iterator returns another error; close `done` and `repos`,
  start sending the error on `err`. -/
  | feederErr (s : PState γ ε ρ ε') (it it2 : RepositoryIter) (e : ε) :
      s.feeder = .run it → s.doneClosed = false →
      it.Next plainOpen = (it2, .error (.openError e)) →
      Step plainOpen factory s
        { s with feeder := .sendErr e, doneClosed := true, reposClosed := true }
  /-- Feeder: `GetPos` index panic (unreachable for API-built pools). -/
  | feederPanic (s : PState γ ε ρ ε') (it it2 : RepositoryIter) :
      s.feeder = .run it → s.doneClosed = false →
      it.Next plainOpen = (it2, .error .indexPanic) →
      Step plainOpen factory s { s with feeder := .crashed }
  /-- Rendezvous on `repos`: a waiting worker receives the repository and
  calls `NewIterator` on it. -/
  | deliverRepo (s : PState γ ε ρ ε') (r : Repository γ) (it : RepositoryIter) (i : Nat) :
      s.feeder = .sendRepo r it → s.workers[i]? = some .wait →
      Step plainOpen factory s
        { s with feeder := .run it, workers := s.workers.set i (recvWorker factory r) }
  /-- Worker: `range i.repos` ends because `repos` is closed; return. -/
  | workerReposClosed (s : PState γ ε ρ ε') (i : Nat) :
      s.reposClosed = true → s.workers[i]? = some .wait →
      Step plainOpen factory s { s with workers := s.workers.set i .exited }
  /-- Worker: observes `done` closed at the top of its inner loop; closes
  its producer and returns. -/
  | workerDoneExit (s : PState γ ε ρ ε') (i : Nat) (rid : String)
      (rows : List ρ) (t : Term ε') :
      s.doneClosed = true → s.workers[i]? = some (.run rid rows t) →
      Step plainOpen factory s { s with workers := s.workers.set i .exited }
  /-- Worker: producer yields a row; start sending it on `rows`. -/
  | workerRow (s : PState γ ε ρ ε') (i : Nat) (rid : String) (row : ρ)
      (rows : List ρ) (t : Term ε') :
      s.doneClosed = false → s.workers[i]? = some (.run rid (row :: rows) t) →
      Step plainOpen factory s { s with workers := s.workers.set i (.sendRow rid row rows t) }
  /-- Worker: producer returns `io.EOF`; close it and go back to the
  `range` over `repos`. -/
  | workerEOF (s : PState γ ε ρ ε') (i : Nat) (rid : String) :
      s.doneClosed = false → s.workers[i]? = some (.run rid [] .eof) →
      Step plainOpen factory s { s with workers := s.workers.set i .wait }
  /-- Worker: producer returns another error; close it and start sending
  the error on `err`. -/
  | workerErrStart (s : PState γ ε ρ ε') (i : Nat) (rid : String) (e : ε') :
      s.doneClosed = false → s.workers[i]? = some (.run rid [] (.err e)) →
      Step plainOpen factory s { s with workers := s.workers.set i (.sendErr e) }
  /-- Worker: any method call on the nil producer interface panics. -/
  | workerNilOp (s : PState γ ε ρ ε') (i : Nat) :
      s.workers[i]? = some .nilProducer →
      Step plainOpen factory s { s with workers := s.workers.set i .panicked }
  /-- Rendezvous on `rows`: the consumer's `Next` receives a row. -/
  | deliverRow (s : PState γ ε ρ ε') (i : Nat) (rid : String) (row : ρ)
      (rows : List ρ) (t : Term ε') :
      s.consumer = .consume → s.workers[i]? = some (.sendRow rid row rows t) →
      Step plainOpen factory s
        { s with workers := s.workers.set i (.run rid rows t)
               , consumed := s.consumed ++ [(rid, row)] }
  /-- Join goroutine: `wg.Wait()` returns once every worker has returned;
  close `rows`. -/
  | joinClose (s : PState γ ε ρ ε') :
      s.rowsClosed = false → (∀ w ∈ s.workers, w = .exited) →
      Step plainOpen factory s { s with rowsClosed := true }
  /-- Consumer: `rows` closed and drained; rendezvous on `err` with the
  feeder's pending `io.EOF`. -/
  | consumerEOF (s : PState γ ε ρ ε') :
      s.consumer = .consume → s.rowsClosed = true → s.feeder = .sendEOF →
      Step plainOpen factory s { s with consumer := .done .eofSignal, feeder := .exited }
  /-- Consumer: rendezvous on `err` with the feeder's pending iterator
  error. -/
  | consumerPoolErr (s : PState γ ε ρ ε') (e : ε) :
      s.consumer = .consume → s.rowsClosed = true → s.feeder = .sendErr e →
      Step plainOpen factory s { s with consumer := .done (.pool e), feeder := .exited }
  /-- Consumer: rendezvous on `err` with a worker's pending producer
  error. -/
  | consumerProdErr (s : PState γ ε ρ ε') (i : Nat) (e : ε') :
      s.consumer = .consume → s.rowsClosed = true → s.workers[i]? = some (.sendErr e) →
      Step plainOpen factory s
        { s with consumer := .done (.producer e), workers := s.workers.set i .errSent }
  /-- Worker: after its error send was received, `close(i.done)` and
  return. -/
  | workerCloseDone (s : PState γ ε ρ ε') (i : Nat) :
      s.workers[i]? = some .errSent →
      Step plainOpen factory s
        { s with workers := s.workers.set i .exited, doneClosed := true }

/-- Reachability of a pipeline state from another by any interleaving. -/
def Reach {γ ε ρ ε' : Type} (plainOpen : String → Except ε γ)
    (factory : Repository γ → Except ε' (Producer ρ ε')) :
    PState γ ε ρ ε' → PState γ ε ρ ε' → Prop :=
  Relation.ReflTransGen (Step plainOpen factory)

/-- Rows produced by running the factory sequentially over every
repository yielded by the Sequential Iterator, concatenated in iterator
order (fuel-bounded; `seqRows` supplies enough fuel to exhaust the
pool). A repository whose `NewIterator` fails contributes no rows; the
iteration stops at the first iterator error. -/
def seqRowsAux {γ ε ρ ε' : Type} (plainOpen : String → Except ε γ)
    (factory : Repository γ → Except ε' (Producer ρ ε')) :
    Nat → RepositoryIter → List ρ
  | 0, _ => []
  | fuel + 1, it =>
    match it.Next plainOpen with
    | (it2, .ok r) =>
      (match factory r with
       | .ok p => p.rows
       | .error _ => []) ++ seqRowsAux plainOpen factory fuel it2
    | (_, .error _) => []

/-- Rows of the sequential reference run over a pool. -/
def seqRows {γ ε ρ ε' : Type} (plainOpen : String → Except ε γ)
    (factory : Repository γ → Except ε' (Producer ρ ε')) (pool : RepositoryPool) : List ρ :=
  seqRowsAux plainOpen factory (pool.repositories.length + 1) pool.RepoIter

/-!
### Clean-run invariant for the pipeline (C1)

Scenario hypotheses: the pool holds `k` repositories, `GetPos` yields
`repOf pos` at every position `pos < k`, repository IDs are pairwise
distinct, and the factory deterministically returns a producer with rows
`prodRows pos` and clean termination for every repository. Under these
hypotheses every completed run delivers exactly the sequential rows as a
multiset, preserving each repository's own emission order.
-/

/-- Rows delivered to the consumer so far that were emitted by the
producer of repository `repOf pos`, in delivery order. -/
def consumedFor {γ ρ : Type} (repOf : Nat → Repository γ)
    (consumed : List (String × ρ)) (pos : Nat) : List ρ :=
  (consumed.filter (fun e => e.1 == (repOf pos).ID)).map Prod.snd

/-- Worker `w` currently owns repository `repOf pos`: it is driving (or
sending a row of) a producer whose already-delivered prefix plus
remaining rows is exactly `prodRows pos`, with clean termination. -/
def holdsW {γ ρ ε' : Type} (repOf : Nat → Repository γ) (prodRows : Nat → List ρ)
    (consumed : List (String × ρ)) (w : WorkerSt ρ ε') (pos : Nat) : Prop :=
  match w with
  | .run rid rows t =>
      rid = (repOf pos).ID ∧ t = .eof ∧
      prodRows pos = consumedFor repOf consumed pos ++ rows
  | .sendRow rid row rows t =>
      rid = (repOf pos).ID ∧ t = .eof ∧
      prodRows pos = consumedFor repOf consumed pos ++ row :: rows
  | _ => False

/-- Number of repositories already handed to some worker: positions below
this bound have been delivered, positions at or above it have not (the
one in the feeder's hand while blocked on `repos` counts as undelivered). -/
def fedBound {γ ε : Type} (k : Nat) : FeederSt γ ε → Nat
  | .run it => it.pos
  | .sendRepo _ it => it.pos - 1
  | _ => k

/-- Shape of the feeder state in a clean run. -/
def FeederInv {γ ε : Type} (pool : RepositoryPool) (k : Nat)
    (repOf : Nat → Repository γ) : FeederSt γ ε → Prop
  | .run it => it.pool = pool ∧ it.pos ≤ k
  | .sendRepo r it => it.pool = pool ∧ 1 ≤ it.pos ∧ it.pos ≤ k ∧ r = repOf (it.pos - 1)
  | .sendEOF => True
  | .sendErr _ => False
  | .crashed => False
  | .exited => True

/-- The repository ID a worker is currently working on, if any. -/
def ownsId {ρ ε' : Type} (w : WorkerSt ρ ε') (id : String) : Prop :=
  match w with
  | .run rid _ _ => rid = id
  | .sendRow rid _ _ _ => rid = id
  | _ => False

/-- No worker is working on the repository with ID `id`. -/
def NoOwner {ρ ε' : Type} (workers : List (WorkerSt ρ ε')) (id : String) : Prop :=
  ∀ (i : Nat) (w : WorkerSt ρ ε'), workers[i]? = some w → ¬ ownsId w id

/-- No two distinct workers are ever working on the same repository ID. -/
def OwnersUnique {ρ ε' : Type} (workers : List (WorkerSt ρ ε')) : Prop :=
  ∀ (i j : Nat) (wi wj : WorkerSt ρ ε') (id : String), i ≠ j →
    workers[i]? = some wi → workers[j]? = some wj →
    ownsId wi id → ownsId wj id → False

/-- Some worker owns repository `repOf pos` (with the `holdsW`
book-keeping equation). -/
def HolderExists {γ ρ ε' : Type} (repOf : Nat → Repository γ) (prodRows : Nat → List ρ)
    (workers : List (WorkerSt ρ ε')) (consumed : List (String × ρ)) (pos : Nat) : Prop :=
  ∃ (i : Nat) (w : WorkerSt ρ ε'), workers[i]? = some w ∧
    holdsW repOf prodRows consumed w pos

/-- Lifecycle of repository `repOf pos` in a clean run: not yet delivered
(nothing consumed, no owner), owned by a worker (with the book-keeping
equation inside `holdsW`), or fully delivered and ownerless. -/
def Phase {γ ε ρ ε' : Type} (k : Nat) (repOf : Nat → Repository γ)
    (prodRows : Nat → List ρ) (feeder : FeederSt γ ε)
    (workers : List (WorkerSt ρ ε')) (consumed : List (String × ρ)) (pos : Nat) : Prop :=
  (pos < fedBound k feeder →
    HolderExists repOf prodRows workers consumed pos ∨
      (consumedFor repOf consumed pos = prodRows pos ∧ NoOwner workers (repOf pos).ID)) ∧
  (fedBound k feeder ≤ pos →
    consumedFor repOf consumed pos = [] ∧ NoOwner workers (repOf pos).ID)

/-- Whether the feeder has already closed the `repos` channel. -/
def feederClosedRepos {γ ε : Type} : FeederSt γ ε → Bool
  | .sendEOF => true
  | .sendErr _ => true
  | .exited => true
  | _ => false

/-- The inductive invariant of a clean pipeline run. -/
structure CleanInv {γ ε ρ ε' : Type} (pool : RepositoryPool) (k : Nat)
    (repOf : Nat → Repository γ) (prodRows : Nat → List ρ)
    (s : PState γ ε ρ ε') : Prop where
  done_false : s.doneClosed = false
  feeder_inv : FeederInv pool k repOf s.feeder
  repos_eq : s.reposClosed = feederClosedRepos s.feeder
  workers_shape : ∀ (i : Nat) (w : WorkerSt ρ ε'), s.workers[i]? = some w →
    w = .wait ∨ w = .exited ∨ ∃ pos, pos < k ∧ holdsW repOf prodRows s.consumed w pos
  owners_unique : OwnersUnique s.workers
  rows_exited : s.rowsClosed = true → ∀ w ∈ s.workers, w = .exited
  consumed_cov : ∀ e ∈ s.consumed, ∃ pos, pos < k ∧ e.1 = (repOf pos).ID
  phase : ∀ pos, pos < k → Phase k repOf prodRows s.feeder s.workers s.consumed pos
  consumer_inv : ∀ e, s.consumer = .done e →
    e = .eofSignal ∧ s.rowsClosed = true ∧ s.feeder = .exited

/-! Small lemmas about `consumedFor`, `holdsW` and worker updates. -/

theorem consumedFor_append_ne {γ ρ : Type} (repOf : Nat → Repository γ)
    (c : List (String × ρ)) (pos : Nat) (rid : String) (row : ρ)
    (h : rid ≠ (repOf pos).ID) :
    consumedFor repOf (c ++ [(rid, row)]) pos = consumedFor repOf c pos := by
  unfold consumedFor
  rw [List.filter_append]
  have hb : (rid == (repOf pos).ID) = false := beq_eq_false_iff_ne.mpr h
  simp [hb]

theorem consumedFor_append_self {γ ρ : Type} (repOf : Nat → Repository γ)
    (c : List (String × ρ)) (pos : Nat) (row : ρ) :
    consumedFor repOf (c ++ [((repOf pos).ID, row)]) pos
      = consumedFor repOf c pos ++ [row] := by
  unfold consumedFor
  rw [List.filter_append]
  simp

theorem holdsW_congr {γ ρ ε' : Type} (repOf : Nat → Repository γ)
    (prodRows : Nat → List ρ) (c1 c2 : List (String × ρ)) (w : WorkerSt ρ ε') (pos : Nat)
    (h : consumedFor repOf c1 pos = consumedFor repOf c2 pos) :
    holdsW repOf prodRows c1 w pos ↔ holdsW repOf prodRows c2 w pos := by
  cases w <;> simp [holdsW, h]

theorem holdsW_rid {γ ρ ε' : Type} (repOf : Nat → Repository γ)
    (prodRows : Nat → List ρ) (c : List (String × ρ)) (w : WorkerSt ρ ε') (pos : Nat)
    (h : holdsW repOf prodRows c w pos) :
    ∃ rows t rid, rid = (repOf pos).ID ∧
      (w = .run rid rows t ∨ ∃ row, w = .sendRow rid row rows t) := by
  cases w with
  | run rid rows t => exact ⟨rows, t, rid, h.1, Or.inl rfl⟩
  | sendRow rid row rows t => exact ⟨rows, t, rid, h.1, Or.inr ⟨row, rfl⟩⟩
  | wait => exact absurd h (by simp [holdsW])
  | nilProducer => exact absurd h (by simp [holdsW])
  | sendErr e => exact absurd h (by simp [holdsW])
  | errSent => exact absurd h (by simp [holdsW])
  | panicked => exact absurd h (by simp [holdsW])
  | exited => exact absurd h (by simp [holdsW])

theorem holdsW_owns {γ ρ ε' : Type} (repOf : Nat → Repository γ) (prodRows : Nat → List ρ)
    (c : List (String × ρ)) (w : WorkerSt ρ ε') (pos : Nat)
    (h : holdsW repOf prodRows c w pos) : ownsId w (repOf pos).ID := by
  cases w <;> simp_all [holdsW, ownsId]

theorem getElem?_some_lt {α : Type} {l : List α} {i : Nat} {a : α}
    (h : l[i]? = some a) : i < l.length :=
  (List.getElem?_eq_some.mp h).1

theorem noOwner_set {ρ ε' : Type} {workers : List (WorkerSt ρ ε')} {id : String}
    (h : NoOwner workers id) (i : Nat) (w2 : WorkerSt ρ ε') (h2 : ¬ ownsId w2 id) :
    NoOwner (workers.set i w2) id := by
  intro j w hj
  by_cases hij : i = j
  · subst hij
    by_cases hlen : i < workers.length
    · rw [List.getElem?_set_self hlen] at hj
      cases hj
      exact h2
    · rw [List.set_eq_of_length_le (by omega)] at hj
      exact h i w hj
  · rw [List.getElem?_set_ne hij] at hj
    exact h j w hj

theorem holderExists_set_self {γ ρ ε' : Type} {repOf : Nat → Repository γ}
    {prodRows : Nat → List ρ} {workers : List (WorkerSt ρ ε')}
    {c : List (String × ρ)} {pos : Nat} (i : Nat) {w2 : WorkerSt ρ ε'}
    (hlen : i < workers.length) (hw2 : holdsW repOf prodRows c w2 pos) :
    HolderExists repOf prodRows (workers.set i w2) c pos :=
  ⟨i, w2, by rw [List.getElem?_set_self hlen], hw2⟩

theorem holderExists_set_other {γ ρ ε' : Type} {repOf : Nat → Repository γ}
    {prodRows : Nat → List ρ} {workers : List (WorkerSt ρ ε')}
    {c : List (String × ρ)} {pos : Nat} {i : Nat} {w2 : WorkerSt ρ ε'}
    (h : HolderExists repOf prodRows workers c pos)
    (hnot : ∀ w : WorkerSt ρ ε', workers[i]? = some w →
      ¬ holdsW repOf prodRows c w pos) :
    HolderExists repOf prodRows (workers.set i w2) c pos := by
  obtain ⟨i0, w0, hi0, hw0⟩ := h
  have hne : i ≠ i0 := fun he => hnot w0 (he ▸ hi0) hw0
  exact ⟨i0, w0, by rw [List.getElem?_set_ne hne]; exact hi0, hw0⟩

theorem holderExists_congr {γ ρ ε' : Type} {repOf : Nat → Repository γ}
    {prodRows : Nat → List ρ} {workers : List (WorkerSt ρ ε')}
    {c1 c2 : List (String × ρ)} {pos : Nat}
    (hc : consumedFor repOf c1 pos = consumedFor repOf c2 pos)
    (h : HolderExists repOf prodRows workers c1 pos) :
    HolderExists repOf prodRows workers c2 pos := by
  obtain ⟨i0, w0, hi0, hw0⟩ := h
  exact ⟨i0, w0, hi0, (holdsW_congr repOf prodRows c1 c2 w0 pos hc).mp hw0⟩

theorem ownersUnique_set {ρ ε' : Type} {workers : List (WorkerSt ρ ε')}
    (h : OwnersUnique workers) (i : Nat) (w2 : WorkerSt ρ ε')
    (hcase : ∀ id, ownsId w2 id → ∀ (j : Nat) (wj : WorkerSt ρ ε'), j ≠ i →
      workers[j]? = some wj → ¬ ownsId wj id) :
    OwnersUnique (workers.set i w2) := by
  intro j1 j2 w1 wj id hne hj1 hj2 ho1 ho2
  by_cases h1 : i = j1
  · subst h1
    by_cases hlen : i < workers.length
    · rw [List.getElem?_set_self hlen] at hj1
      cases hj1
      rw [List.getElem?_set_ne hne] at hj2
      exact hcase id ho1 j2 wj (Ne.symm hne) hj2 ho2
    · rw [List.set_eq_of_length_le (by omega)] at hj1 hj2
      exact h _ _ _ _ _ hne hj1 hj2 ho1 ho2
  · rw [List.getElem?_set_ne h1] at hj1
    by_cases h2 : i = j2
    · subst h2
      by_cases hlen : i < workers.length
      · rw [List.getElem?_set_self hlen] at hj2
        cases hj2
        exact hcase id ho2 j1 w1 (fun hh => h1 hh.symm) hj1 ho1
      · rw [List.set_eq_of_length_le (by omega)] at hj2
        exact h _ _ _ _ _ hne hj1 hj2 ho1 ho2
    · rw [List.getElem?_set_ne h2] at hj2
      exact h _ _ _ _ _ hne hj1 hj2 ho1 ho2

theorem phase_feeder_congr {γ ε ρ ε' : Type} {k : Nat} {repOf : Nat → Repository γ}
    {prodRows : Nat → List ρ} {f1 f2 : FeederSt γ ε}
    {workers : List (WorkerSt ρ ε')} {consumed : List (String × ρ)} {pos : Nat}
    (h : fedBound k f2 = fedBound k f1)
    (hp : Phase k repOf prodRows f1 workers consumed pos) :
    Phase k repOf prodRows f2 workers consumed pos := by
  unfold Phase at *
  rw [h]
  exact hp

section CleanRun

variable {γ ε ρ ε' : Type}
variable {plainOpen : String → Except ε γ}
variable {factory : Repository γ → Except ε' (Producer ρ ε')}
variable {pool : RepositoryPool} {k : Nat}
variable {repOf : Nat → Repository γ} {prodRows : Nat → List ρ}

/-- Behaviour of the sequential iterator over a fully valid pool. -/
theorem iter_next_spec
    (hk : pool.repositories.length = k)
    (hv : ∀ pos, pos < k → pool.GetPos plainOpen pos = .ok (repOf pos))
    (it : RepositoryIter) (hpool : it.pool = pool) (hle : it.pos ≤ k) :
    (it.pos < k ∧ it.Next plainOpen
        = ({ pos := it.pos + 1, pool := it.pool }, .ok (repOf it.pos))) ∨
    (it.pos = k ∧ it.Next plainOpen = (it, .error .eof)) := by
  by_cases hlt : it.pos < k
  · left
    refine ⟨hlt, ?_⟩
    unfold RepositoryIter.Next
    rw [hpool, hv _ hlt]
  · right
    have hek : it.pos = k := by omega
    refine ⟨hek, ?_⟩
    unfold RepositoryIter.Next
    rw [hpool, getPos_eof_of_le _ _ _ (by omega)]

/-- The invariant holds initially. -/
theorem cleanInv_init (W : Nat) :
    CleanInv pool k repOf prodRows (initState γ ε ρ ε' pool W) := by
  refine ⟨rfl, ⟨rfl, Nat.zero_le _⟩, rfl, ?_, ?_, ?_, ?_, ?_, ?_⟩
  · intro i w hw
    left
    exact List.eq_of_mem_replicate (List.getElem?_mem hw)
  · intro i j wi wj id hne hi hj ho1 ho2
    have hwi : wi = .wait := List.eq_of_mem_replicate (List.getElem?_mem hi)
    rw [hwi] at ho1
    exact ho1
  · intro hrc
    simp [initState] at hrc
  · intro e he
    simp [initState] at he
  · intro pos hp
    constructor
    · intro hlt
      simp [initState, fedBound, RepositoryPool.RepoIter] at hlt
    · intro _
      refine ⟨rfl, ?_⟩
      intro i w hw how
      have hwi : w = .wait := List.eq_of_mem_replicate (List.getElem?_mem hw)
      rw [hwi] at how
      exact how
  · intro e he
    simp [initState] at he

/-- The invariant is preserved by every pipeline step. -/
theorem cleanInv_step
    (hk : pool.repositories.length = k)
    (hv : ∀ pos, pos < k → pool.GetPos plainOpen pos = .ok (repOf pos))
    (hids : ∀ p2 q, p2 < k → q < k → (repOf p2).ID = (repOf q).ID → p2 = q)
    (hfac : ∀ pos, pos < k →
      factory (repOf pos) = .ok { rows := prodRows pos, term := .eof })
    {s s2 : PState γ ε ρ ε'}
    (hs : CleanInv pool k repOf prodRows s)
    (hstep : Step plainOpen factory s s2) :
    CleanInv pool k repOf prodRows s2 := by
  obtain ⟨hdone, hfeed, hrepos, hshape, howner, hrows, hcov, hphase, hcons⟩ := hs
  cases hstep with
  | feederDone it hf hd =>
    simp [hdone] at hd
  | feederOk it it2 r hf hd hnext =>
    obtain ⟨hpool, hle⟩ := (show FeederInv pool k repOf (.run it) from hf ▸ hfeed)
    rcases iter_next_spec hk hv it hpool hle with ⟨hlt, heq⟩ | ⟨hek, heq⟩
    · rw [hnext] at heq
      have hit2 : it2 = { pos := it.pos + 1, pool := it.pool } := congrArg Prod.fst heq
      have hr : r = repOf it.pos := Except.ok.inj (congrArg Prod.snd heq)
      subst hit2
      subst hr
      refine ⟨hdone, ⟨hpool, by show 1 ≤ it.pos + 1; omega, by show it.pos + 1 ≤ k; omega,
        by show repOf it.pos = repOf (it.pos + 1 - 1); simp⟩, ?_, hshape, howner, hrows,
        hcov, ?_, ?_⟩
      · dsimp only
        rw [hrepos, hf]
        rfl
      · intro pos hp
        exact phase_feeder_congr (by dsimp only; rw [hf]; simp [fedBound]) (hphase pos hp)
      · intro e he
        obtain ⟨-, -, hfx⟩ := hcons e he
        rw [hf] at hfx
        exact absurd hfx (by simp)
    · rw [hnext] at heq
      have := congrArg Prod.snd heq
      simp at this
  | feederEOF it it2 hf hd hnext =>
    obtain ⟨hpool, hle⟩ := (show FeederInv pool k repOf (.run it) from hf ▸ hfeed)
    rcases iter_next_spec hk hv it hpool hle with ⟨hlt, heq⟩ | ⟨hek, heq⟩
    · rw [hnext] at heq
      have := congrArg Prod.snd heq
      simp at this
    · refine ⟨hdone, trivial, rfl, hshape, howner, hrows, hcov, ?_, ?_⟩
      · intro pos hp
        exact phase_feeder_congr (by dsimp only; rw [hf]; simp [fedBound, hek]) (hphase pos hp)
      · intro e he
        obtain ⟨-, -, hfx⟩ := hcons e he
        rw [hf] at hfx
        exact absurd hfx (by simp)
  | feederErr it it2 e hf hd hnext =>
    obtain ⟨hpool, hle⟩ := (show FeederInv pool k repOf (.run it) from hf ▸ hfeed)
    rcases iter_next_spec hk hv it hpool hle with ⟨hlt, heq⟩ | ⟨hek, heq⟩ <;>
      rw [hnext] at heq <;> simp [Prod.ext_iff] at heq
  | feederPanic it it2 hf hd hnext =>
    obtain ⟨hpool, hle⟩ := (show FeederInv pool k repOf (.run it) from hf ▸ hfeed)
    rcases iter_next_spec hk hv it hpool hle with ⟨hlt, heq⟩ | ⟨hek, heq⟩ <;>
      rw [hnext] at heq <;> simp [Prod.ext_iff] at heq
  | deliverRepo r it i hf hwi =>
    have hlen : i < s.workers.length := getElem?_some_lt hwi
    obtain ⟨hpool, h1, hle, hr⟩ :=
      (show FeederInv pool k repOf (.sendRepo r it) from hf ▸ hfeed)
    have hp0k : it.pos - 1 < k := by omega
    have hrecv : recvWorker factory r
        = WorkerSt.run (repOf (it.pos - 1)).ID (prodRows (it.pos - 1)) .eof := by
      rw [hr]
      unfold recvWorker
      rw [hfac _ hp0k]
    obtain ⟨hcf0, hnoown0⟩ :=
      (hphase (it.pos - 1) hp0k).2 (by rw [hf]; exact Nat.le_refl _)
    have hold2 : holdsW repOf prodRows s.consumed
        (WorkerSt.run (repOf (it.pos - 1)).ID (prodRows (it.pos - 1)) .eof : WorkerSt ρ ε')
        (it.pos - 1) := by
      refine ⟨rfl, rfl, ?_⟩
      rw [hcf0]
      simp
    refine ⟨hdone, ⟨hpool, hle⟩, ?_, ?_, ?_, ?_, hcov, ?_, ?_⟩
    · dsimp only
      rw [hrepos, hf]
      rfl
    · intro j w hj
      dsimp only at hj ⊢
      rw [hrecv] at hj
      by_cases hij : i = j
      · subst hij
        rw [List.getElem?_set_self hlen] at hj
        cases hj
        exact Or.inr (Or.inr ⟨it.pos - 1, hp0k, hold2⟩)
      · rw [List.getElem?_set_ne hij] at hj
        exact hshape j w hj
    · dsimp only
      rw [hrecv]
      refine ownersUnique_set howner i _ ?_
      intro id ho j wj hji hj2 hoj
      rw [← ho] at hoj
      exact hnoown0 j wj hj2 hoj
    · intro hrc2
      exact absurd (hrows hrc2 _ (List.getElem?_mem hwi)) (by simp)
    · intro pos hp
      dsimp only
      rw [hrecv]
      by_cases hpp : pos = it.pos - 1
      · subst hpp
        constructor
        · intro _
          exact Or.inl (holderExists_set_self i hlen hold2)
        · intro hge
          simp [fedBound] at hge
          omega
      · have hnotold : ∀ w : WorkerSt ρ ε', s.workers[i]? = some w →
            ¬ holdsW repOf prodRows s.consumed w pos := by
          intro w hw hh
          rw [hwi] at hw
          cases hw
          simp [holdsW] at hh
        have hnotnew : ¬ ownsId
            (WorkerSt.run (repOf (it.pos - 1)).ID (prodRows (it.pos - 1)) (Term.eof : Term ε'))
            (repOf pos).ID := by
          intro ho
          exact hpp (hids pos (it.pos - 1) hp hp0k ho.symm)
        constructor
        · intro hlt2
          have hlt3 : pos < it.pos - 1 := by
            simp [fedBound] at hlt2
            omega
          rcases (hphase pos hp).1 (by rw [hf]; simpa [fedBound] using hlt3) with
            hold3 | ⟨hcf, hno⟩
          · exact Or.inl (holderExists_set_other hold3 hnotold)
          · exact Or.inr ⟨hcf, noOwner_set hno i _ hnotnew⟩
        · intro hge2
          have hge3 : it.pos - 1 ≤ pos := by
            simp [fedBound] at hge2
            omega
          obtain ⟨hh1, hh2⟩ := (hphase pos hp).2 (by rw [hf]; simpa [fedBound] using hge3)
          exact ⟨hh1, noOwner_set hh2 i _ hnotnew⟩
    · intro e he
      obtain ⟨-, -, hfx⟩ := hcons e he
      rw [hf] at hfx
      exact absurd hfx (by simp)
  | workerReposClosed i hrc hwi =>
    have hlen : i < s.workers.length := getElem?_some_lt hwi
    refine ⟨hdone, hfeed, hrepos, ?_, ?_, ?_, hcov, ?_, ?_⟩
    · intro j w hj
      dsimp only at hj ⊢
      by_cases hij : i = j
      · subst hij
        rw [List.getElem?_set_self hlen] at hj
        cases hj
        exact Or.inr (Or.inl rfl)
      · rw [List.getElem?_set_ne hij] at hj
        exact hshape j w hj
    · dsimp only
      refine ownersUnique_set howner i _ ?_
      intro id ho
      simp [ownsId] at ho
    · intro hrc2
      exact absurd (hrows hrc2 _ (List.getElem?_mem hwi)) (by simp)
    · intro pos hp
      dsimp only
      constructor
      · intro hlt2
        rcases (hphase pos hp).1 hlt2 with hold3 | ⟨hcf, hno⟩
        · refine Or.inl (holderExists_set_other hold3 ?_)
          intro w hw hh
          rw [hwi] at hw
          cases hw
          simp [holdsW] at hh
        · exact Or.inr ⟨hcf, noOwner_set hno i _ (by simp [ownsId])⟩
      · intro hge2
        obtain ⟨h1, h2⟩ := (hphase pos hp).2 hge2
        exact ⟨h1, noOwner_set h2 i _ (by simp [ownsId])⟩
    · intro e he
      exact hcons e he
  | workerDoneExit i rid rows t hd hwi =>
    simp [hdone] at hd
  | workerRow i rid row rows t hd hwi =>
    have hlen : i < s.workers.length := getElem?_some_lt hwi
    rcases hshape i _ hwi with h | h | ⟨pos0, hp0k, hrid, ht, heqn⟩
    · simp at h
    · simp at h
    subst ht
    have hlt0 : pos0 < fedBound k s.feeder := by
      by_contra hge
      exact ((hphase pos0 hp0k).2 (by omega)).2 i _ hwi hrid
    have hold2 : holdsW repOf prodRows s.consumed
        (WorkerSt.sendRow rid row rows .eof : WorkerSt ρ ε') pos0 := ⟨hrid, rfl, heqn⟩
    refine ⟨hdone, hfeed, hrepos, ?_, ?_, ?_, hcov, ?_, ?_⟩
    · intro j w hj
      dsimp only at hj ⊢
      by_cases hij : i = j
      · subst hij
        rw [List.getElem?_set_self hlen] at hj
        cases hj
        exact Or.inr (Or.inr ⟨pos0, hp0k, hold2⟩)
      · rw [List.getElem?_set_ne hij] at hj
        exact hshape j w hj
    · dsimp only
      refine ownersUnique_set howner i _ ?_
      intro id ho j wj hji hj2 hoj
      exact howner i j _ _ id (fun hh => hji hh.symm) hwi hj2 ho hoj
    · intro hrc2
      exact absurd (hrows hrc2 _ (List.getElem?_mem hwi)) (by simp)
    · intro pos hp
      dsimp only
      by_cases hpp : pos = pos0
      · subst hpp
        constructor
        · intro _
          exact Or.inl (holderExists_set_self i hlen hold2)
        · intro hge
          omega
      · have hnotold : ∀ w : WorkerSt ρ ε', s.workers[i]? = some w →
            ¬ holdsW repOf prodRows s.consumed w pos := by
          intro w hw hh
          rw [hwi] at hw
          cases hw
          exact hpp (hids pos pos0 hp hp0k (hh.1.symm.trans hrid))
        have hnotnew : ¬ ownsId (WorkerSt.sendRow rid row rows (Term.eof : Term ε'))
            (repOf pos).ID := by
          intro ho
          exact hpp (hids pos pos0 hp hp0k (ho.symm.trans hrid))
        constructor
        · intro hlt2
          rcases (hphase pos hp).1 hlt2 with hold3 | ⟨hcf, hno⟩
          · exact Or.inl (holderExists_set_other hold3 hnotold)
          · exact Or.inr ⟨hcf, noOwner_set hno i _ hnotnew⟩
        · intro hge2
          obtain ⟨h1, h2⟩ := (hphase pos hp).2 hge2
          exact ⟨h1, noOwner_set h2 i _ hnotnew⟩
    · intro e he
      exact hcons e he
  | workerEOF i rid hd hwi =>
    have hlen : i < s.workers.length := getElem?_some_lt hwi
    rcases hshape i _ hwi with h | h | ⟨pos0, hp0k, hrid, ht, heqn⟩
    · simp at h
    · simp at h
    rw [List.append_nil] at heqn
    have hlt0 : pos0 < fedBound k s.feeder := by
      by_contra hge
      exact ((hphase pos0 hp0k).2 (by omega)).2 i _ hwi hrid
    refine ⟨hdone, hfeed, hrepos, ?_, ?_, ?_, hcov, ?_, ?_⟩
    · intro j w hj
      dsimp only at hj ⊢
      by_cases hij : i = j
      · subst hij
        rw [List.getElem?_set_self hlen] at hj
        cases hj
        exact Or.inl rfl
      · rw [List.getElem?_set_ne hij] at hj
        exact hshape j w hj
    · dsimp only
      refine ownersUnique_set howner i _ ?_
      intro id ho
      simp [ownsId] at ho
    · intro hrc2
      exact absurd (hrows hrc2 _ (List.getElem?_mem hwi)) (by simp)
    · intro pos hp
      dsimp only
      by_cases hpp : pos = pos0
      · subst hpp
        constructor
        · intro _
          refine Or.inr ⟨heqn.symm, ?_⟩
          intro j w hj how
          by_cases hij : i = j
          · subst hij
            rw [List.getElem?_set_self hlen] at hj
            cases hj
            simp [ownsId] at how
          · rw [List.getElem?_set_ne hij] at hj
            exact howner i j _ _ _ hij hwi hj hrid how
        · intro hge
          omega
      · have hnotold : ∀ w : WorkerSt ρ ε', s.workers[i]? = some w →
            ¬ holdsW repOf prodRows s.consumed w pos := by
          intro w hw hh
          rw [hwi] at hw
          cases hw
          exact hpp (hids pos pos0 hp hp0k (hh.1.symm.trans hrid))
        constructor
        · intro hlt2
          rcases (hphase pos hp).1 hlt2 with hold3 | ⟨hcf, hno⟩
          · exact Or.inl (holderExists_set_other hold3 hnotold)
          · exact Or.inr ⟨hcf, noOwner_set hno i _ (by simp [ownsId])⟩
        · intro hge2
          obtain ⟨h1, h2⟩ := (hphase pos hp).2 hge2
          exact ⟨h1, noOwner_set h2 i _ (by simp [ownsId])⟩
    · intro e he
      exact hcons e he
  | workerErrStart i rid e hd hwi =>
    rcases hshape i _ hwi with h | h | ⟨pos0, hp0k, hold⟩
    · simp at h
    · simp at h
    · exact absurd hold.2.1 (by simp)
  | workerNilOp i hwi =>
    rcases hshape i _ hwi with h | h | ⟨pos0, hp0k, hold⟩
    · simp at h
    · simp at h
    · simp [holdsW] at hold
  | deliverRow i rid row rows t hc hwi =>
    have hlen : i < s.workers.length := getElem?_some_lt hwi
    rcases hshape i _ hwi with h | h | ⟨pos0, hp0k, hrid, ht, heqn⟩
    · simp at h
    · simp at h
    subst ht
    have hcf0 : consumedFor repOf (s.consumed ++ [(rid, row)]) pos0
        = consumedFor repOf s.consumed pos0 ++ [row] := by
      rw [hrid]
      exact consumedFor_append_self repOf s.consumed pos0 row
    have hcfne : ∀ pos, pos < k → pos ≠ pos0 →
        consumedFor repOf (s.consumed ++ [(rid, row)]) pos
          = consumedFor repOf s.consumed pos := by
      intro pos hp hne2
      refine consumedFor_append_ne repOf s.consumed pos rid row ?_
      intro hh
      exact hne2 (hids pos pos0 hp hp0k (hh.symm.trans hrid))
    have hold2 : holdsW repOf prodRows (s.consumed ++ [(rid, row)])
        (WorkerSt.run rid rows .eof : WorkerSt ρ ε') pos0 := by
      refine ⟨hrid, rfl, ?_⟩
      rw [hcf0, heqn]
      simp
    have hlt0 : pos0 < fedBound k s.feeder := by
      by_contra hge
      exact ((hphase pos0 hp0k).2 (by omega)).2 i _ hwi hrid
    refine ⟨hdone, hfeed, hrepos, ?_, ?_, ?_, ?_, ?_, ?_⟩
    · intro j w hj
      dsimp only at hj ⊢
      by_cases hij : i = j
      · subst hij
        rw [List.getElem?_set_self hlen] at hj
        cases hj
        exact Or.inr (Or.inr ⟨pos0, hp0k, hold2⟩)
      · rw [List.getElem?_set_ne hij] at hj
        rcases hshape j w hj with h | h | ⟨pos1, hp1k, hold1⟩
        · exact Or.inl h
        · exact Or.inr (Or.inl h)
        · by_cases hpp : pos1 = pos0
          · subst hpp
            exact absurd (holdsW_owns repOf prodRows _ w pos1 hold1)
              (fun how => howner i j _ _ _ hij hwi hj hrid how)
          · refine Or.inr (Or.inr ⟨pos1, hp1k, ?_⟩)
            exact (holdsW_congr repOf prodRows s.consumed _ w pos1
              (hcfne pos1 hp1k hpp).symm).mp hold1
    · dsimp only
      refine ownersUnique_set howner i _ ?_
      intro id ho j wj hji hj2 hoj
      exact howner i j _ _ id (fun hh => hji hh.symm) hwi hj2 ho hoj
    · intro hrc2
      exact absurd (hrows hrc2 _ (List.getElem?_mem hwi)) (by simp)
    · intro e he
      dsimp only at he
      rcases List.mem_append.mp he with h | h
      · exact hcov e h
      · rw [List.mem_singleton] at h
        subst h
        exact ⟨pos0, hp0k, hrid⟩
    · intro pos hp
      dsimp only
      by_cases hpp : pos = pos0
      · subst hpp
        constructor
        · intro _
          exact Or.inl (holderExists_set_self i hlen hold2)
        · intro hge
          omega
      · have hnotold : ∀ w : WorkerSt ρ ε', s.workers[i]? = some w →
            ¬ holdsW repOf prodRows (s.consumed ++ [(rid, row)]) w pos := by
          intro w hw hh
          rw [hwi] at hw
          cases hw
          exact hpp (hids pos pos0 hp hp0k (hh.1.symm.trans hrid))
        have hnotnew : ¬ ownsId (WorkerSt.run rid rows (Term.eof : Term ε'))
            (repOf pos).ID := by
          intro ho
          exact hpp (hids pos pos0 hp hp0k (ho.symm.trans hrid))
        constructor
        · intro hlt2
          rcases (hphase pos hp).1 hlt2 with hold3 | ⟨hcf, hno⟩
          · refine Or.inl (holderExists_set_other ?_ hnotold)
            exact holderExists_congr (hcfne pos hp hpp).symm hold3
          · refine Or.inr ⟨?_, noOwner_set hno i _ hnotnew⟩
            rw [hcfne pos hp hpp]
            exact hcf
        · intro hge2
          obtain ⟨h1, h2⟩ := (hphase pos hp).2 hge2
          refine ⟨?_, noOwner_set h2 i _ hnotnew⟩
          rw [hcfne pos hp hpp]
          exact h1
    · intro e he
      exact hcons e he
  | joinClose h0 hall =>
    refine ⟨hdone, hfeed, hrepos, hshape, howner, ?_, hcov, hphase, ?_⟩
    · intro _
      exact hall
    · intro e he
      obtain ⟨h1, h2, h3⟩ := hcons e he
      exact ⟨h1, rfl, h3⟩
  | consumerEOF hc hrc hf =>
    refine ⟨hdone, trivial, ?_, hshape, howner, hrows, hcov, ?_, ?_⟩
    · dsimp only
      rw [hrepos, hf]
      rfl
    · intro pos hp
      exact phase_feeder_congr (by dsimp only; rw [hf]; rfl) (hphase pos hp)
    · intro e he
      have h5 := ConsumerSt.done.inj he
      exact ⟨h5.symm, hrc, rfl⟩
  | consumerPoolErr e hc hrc hf =>
    have h5 := hfeed
    rw [hf] at h5
    exact h5.elim
  | consumerProdErr i e hc hrc hwi =>
    rcases hshape i _ hwi with h | h | ⟨pos0, hp0k, hold⟩
    · simp at h
    · simp at h
    · simp [holdsW] at hold
  | workerCloseDone i hwi =>
    rcases hshape i _ hwi with h | h | ⟨pos0, hp0k, hold⟩
    · simp at h
    · simp at h
    · simp [holdsW] at hold

/-- The invariant holds in every reachable state of a clean run. -/
theorem cleanInv_reach
    (hk : pool.repositories.length = k)
    (hv : ∀ pos, pos < k → pool.GetPos plainOpen pos = .ok (repOf pos))
    (hids : ∀ p2 q, p2 < k → q < k → (repOf p2).ID = (repOf q).ID → p2 = q)
    (hfac : ∀ pos, pos < k →
      factory (repOf pos) = .ok { rows := prodRows pos, term := .eof })
    (W : Nat) (s : PState γ ε ρ ε')
    (h : Reach plainOpen factory (initState γ ε ρ ε' pool W) s) :
    CleanInv pool k repOf prodRows s := by
  induction h with
  | refl => exact cleanInv_init W
  | tail h1 h2 ih => exact cleanInv_step hk hv hids hfac ih h2

/-- The sequential reference run over a valid pool yields the
concatenation of every producer's rows in pool order. -/
theorem seqRowsAux_eq
    (hk : pool.repositories.length = k)
    (hv : ∀ pos, pos < k → pool.GetPos plainOpen pos = .ok (repOf pos))
    (hfac : ∀ pos, pos < k →
      factory (repOf pos) = .ok { rows := prodRows pos, term := .eof }) :
    ∀ (n j : Nat), j + n = k →
      seqRowsAux plainOpen factory (n + 1) { pos := j, pool := pool }
        = ((List.range' j n).map prodRows).flatten := by
  intro n
  induction n with
  | zero =>
    intro j hj
    have hnext : RepositoryIter.Next plainOpen { pos := j, pool := pool }
        = ({ pos := j, pool := pool }, .error .eof) := by
      unfold RepositoryIter.Next
      rw [getPos_eof_of_le _ _ _ (show pool.repositories.length ≤ j by omega)]
    unfold seqRowsAux
    rw [hnext]
    simp
  | succ m ih =>
    intro j hj
    have hjk : j < k := by omega
    have hnext : RepositoryIter.Next plainOpen { pos := j, pool := pool }
        = ({ pos := j + 1, pool := pool }, .ok (repOf j)) := by
      unfold RepositoryIter.Next
      rw [show RepositoryPool.GetPos plainOpen pool j = .ok (repOf j) from hv j hjk]
    unfold seqRowsAux
    rw [hnext]
    dsimp only
    rw [hfac j hjk, ih (j + 1) (by omega), List.range'_succ]
    simp

theorem seqRows_eq
    (hk : pool.repositories.length = k)
    (hv : ∀ pos, pos < k → pool.GetPos plainOpen pos = .ok (repOf pos))
    (hfac : ∀ pos, pos < k →
      factory (repOf pos) = .ok { rows := prodRows pos, term := .eof }) :
    seqRows plainOpen factory pool = ((List.range k).map prodRows).flatten := by
  unfold seqRows
  rw [hk, show pool.RepoIter = { pos := 0, pool := pool } from rfl,
    seqRowsAux_eq hk hv hfac k 0 (by omega), List.range_eq_range']

end CleanRun

/-- Partition of a tagged row list by its tags: the multiset of rows is
the concatenation, over the (duplicate-free) tag universe, of each tag's
own rows. -/
theorem map_snd_perm_partition {ρ : Type} :
    ∀ (ids : List String) (l : List (String × ρ)), ids.Nodup →
      (∀ e ∈ l, e.1 ∈ ids) →
      (l.map Prod.snd).Perm
        ((ids.map (fun id => (l.filter (fun e => e.1 == id)).map Prod.snd)).flatten) := by
  intro ids
  induction ids with
  | nil =>
    intro l _ hcov
    have hl : l = [] := by
      cases l with
      | nil => rfl
      | cons e rest => exact absurd (hcov e (by simp)) (by simp)
    subst hl
    simp
  | cons id rest ih =>
    intro l hnd hcov
    simp only [List.nodup_cons] at hnd
    have hsplit : (l.map Prod.snd).Perm
        ((l.filter (fun e => e.1 == id)).map Prod.snd ++
         (l.filter (fun e => !(e.1 == id))).map Prod.snd) := by
      rw [← List.map_append]
      exact (List.Perm.map Prod.snd (List.filter_append_perm _ l)).symm
    refine hsplit.trans ?_
    simp only [List.map_cons, List.flatten_cons]
    refine List.Perm.append_left _ ?_
    have hcov2 : ∀ e ∈ l.filter (fun e => !(e.1 == id)), e.1 ∈ rest := by
      intro e he
      rw [List.mem_filter] at he
      have hin := hcov e he.1
      have hne : ¬(e.1 == id) = true := by
        have := he.2
        simp at this
        simp [this]
      rcases List.mem_cons.mp hin with h | h
      · exact absurd (by simp [h]) hne
      · exact h
    have hperm2 := ih (l.filter (fun e => !(e.1 == id))) hnd.2 hcov2
    refine hperm2.trans ?_
    have hfix : (rest.map (fun id2 =>
          ((l.filter (fun e => !(e.1 == id))).filter (fun e => e.1 == id2)).map Prod.snd))
        = (rest.map (fun id2 => (l.filter (fun e => e.1 == id2)).map Prod.snd)) := by
      refine List.map_congr_left ?_
      intro id2 hid2
      congr 1
      rw [List.filter_filter]
      refine List.filter_congr ?_
      intro e _
      by_cases h2 : (e.1 == id2) = true
      · have : e.1 = id2 := by simpa using h2
        have hne2 : ¬(e.1 == id) = true := by
          simp [this]
          intro hc
          exact hnd.1 (hc ▸ hid2)
        simp [h2, this, hne2]
        intro hc
        exact absurd (hc ▸ hid2) hnd.1
      · simp at h2
        simp [h2]
    rw [hfix]

/-- C1: over a pool of `k` valid repositories with pairwise-distinct IDs
and a per-repository deterministic factory whose producers terminate
cleanly, every interleaving of the pipeline that reaches completion (the
consumer's `Next` returned the terminal value after the output queue
closed) has: a clean `io.EOF` completion, a multiset of delivered rows
equal to the sequential run over the Sequential Iterator, and, within
each single repository, delivery in exactly that producer's emission
order. Order across repositories depends on the interleaving chosen and
is not constrained by this statement. -/
theorem c1_pipeline_rows_multiset_and_order
    {γ ε ρ ε' : Type} (plainOpen : String → Except ε γ)
    (factory : Repository γ → Except ε' (Producer ρ ε'))
    (pool : RepositoryPool) (k : Nat) (repOf : Nat → Repository γ)
    (prodRows : Nat → List ρ)
    (hk : pool.repositories.length = k)
    (hv : ∀ pos, pos < k → pool.GetPos plainOpen pos = .ok (repOf pos))
    (hids : ∀ p2 q, p2 < k → q < k → (repOf p2).ID = (repOf q).ID → p2 = q)
    (hfac : ∀ pos, pos < k →
      factory (repOf pos) = .ok { rows := prodRows pos, term := .eof })
    (W : Nat) (s : PState γ ε ρ ε')
    (hreach : Reach plainOpen factory (initState γ ε ρ ε' pool W) s)
    (e : PipeError ε ε') (hdone : s.consumer = .done e) :
    e = .eofSignal ∧
    (s.consumed.map Prod.snd).Perm (seqRows plainOpen factory pool) ∧
    (∀ pos, pos < k → consumedFor repOf s.consumed pos = prodRows pos) := by
  have hinv := cleanInv_reach hk hv hids hfac W s hreach
  obtain ⟨heof, hrc, hfx⟩ := hinv.consumer_inv e hdone
  have hallex := hinv.rows_exited hrc
  have horder : ∀ pos, pos < k → consumedFor repOf s.consumed pos = prodRows pos := by
    intro pos hp
    have hfb : fedBound k s.feeder = k := by
      rw [hfx]
      rfl
    rcases (hinv.phase pos hp).1 (by rw [hfb]; exact hp) with ⟨i0, w0, hi0, hw0⟩ | ⟨hcf, -⟩
    · have hex : w0 = .exited := hallex w0 (List.getElem?_mem hi0)
      rw [hex] at hw0
      simp [holdsW] at hw0
    · exact hcf
  have hnodup : ((List.range k).map (fun pos => (repOf pos).ID)).Nodup := by
    refine List.Nodup.map_on ?_ (List.nodup_range k)
    intro x hx y hy hxy
    rw [List.mem_range] at hx hy
    exact hids x y hx hy hxy
  have hcov : ∀ ent ∈ s.consumed, ent.1 ∈ (List.range k).map (fun pos => (repOf pos).ID) := by
    intro ent hent
    obtain ⟨pos, hp, hfst⟩ := hinv.consumed_cov ent hent
    rw [List.mem_map]
    exact ⟨pos, List.mem_range.mpr hp, hfst.symm⟩
  have hperm := map_snd_perm_partition ((List.range k).map (fun pos => (repOf pos).ID))
    s.consumed hnodup hcov
  have hjoin : (((List.range k).map (fun pos => (repOf pos).ID)).map
        (fun id => (s.consumed.filter (fun ent => ent.1 == id)).map Prod.snd)).flatten
      = seqRows plainOpen factory pool := by
    rw [List.map_map, seqRows_eq hk hv hfac]
    congr 1
    refine List.map_congr_left ?_
    intro pos hpos
    rw [List.mem_range] at hpos
    exact horder pos hpos
  exact ⟨heof, hjoin ▸ hperm, horder⟩

/-! Concrete completing run used to instantiate the C1 theorem: one
repository, one row, one worker. -/

def c1pool : RepositoryPool := NewRepositoryPool.Add "a" "p"

def c1po : String → Except Unit Unit := fun _ => .ok ()

def c1fac : Repository Unit → Except Unit (Producer Nat Unit) :=
  fun _ => .ok { rows := [7], term := .eof }

def c1repOf : Nat → Repository Unit := fun _ => { ID := "a", Repo := () }

def c1s0 : PState Unit Unit Nat Unit := initState Unit Unit Nat Unit c1pool 1

def c1s1 : PState Unit Unit Nat Unit :=
  { feeder := .sendRepo { ID := "a", Repo := () } { pos := 1, pool := c1pool }
  , workers := [.wait], reposClosed := false, doneClosed := false
  , rowsClosed := false, consumed := [], consumer := .consume }

def c1s2 : PState Unit Unit Nat Unit :=
  { feeder := .run { pos := 1, pool := c1pool }
  , workers := [.run "a" [7] .eof], reposClosed := false, doneClosed := false
  , rowsClosed := false, consumed := [], consumer := .consume }

def c1s3 : PState Unit Unit Nat Unit :=
  { feeder := .sendEOF
  , workers := [.run "a" [7] .eof], reposClosed := true, doneClosed := false
  , rowsClosed := false, consumed := [], consumer := .consume }

def c1s4 : PState Unit Unit Nat Unit :=
  { feeder := .sendEOF
  , workers := [.sendRow "a" 7 [] .eof], reposClosed := true, doneClosed := false
  , rowsClosed := false, consumed := [], consumer := .consume }

def c1s5 : PState Unit Unit Nat Unit :=
  { feeder := .sendEOF
  , workers := [.run "a" [] .eof], reposClosed := true, doneClosed := false
  , rowsClosed := false, consumed := [("a", 7)], consumer := .consume }

def c1s6 : PState Unit Unit Nat Unit :=
  { feeder := .sendEOF
  , workers := [.wait], reposClosed := true, doneClosed := false
  , rowsClosed := false, consumed := [("a", 7)], consumer := .consume }

def c1s7 : PState Unit Unit Nat Unit :=
  { feeder := .sendEOF
  , workers := [.exited], reposClosed := true, doneClosed := false
  , rowsClosed := false, consumed := [("a", 7)], consumer := .consume }

def c1s8 : PState Unit Unit Nat Unit :=
  { feeder := .sendEOF
  , workers := [.exited], reposClosed := true, doneClosed := false
  , rowsClosed := true, consumed := [("a", 7)], consumer := .consume }

def c1s9 : PState Unit Unit Nat Unit :=
  { feeder := .exited
  , workers := [.exited], reposClosed := true, doneClosed := false
  , rowsClosed := true, consumed := [("a", 7)], consumer := .done .eofSignal }

theorem c1_reach : Reach c1po c1fac c1s0 c1s9 := by
  have st1 : Step c1po c1fac c1s0 c1s1 :=
    Step.feederOk c1s0 { pos := 0, pool := c1pool } { pos := 1, pool := c1pool }
      { ID := "a", Repo := () } rfl rfl rfl
  have st2 : Step c1po c1fac c1s1 c1s2 :=
    Step.deliverRepo c1s1 { ID := "a", Repo := () } { pos := 1, pool := c1pool } 0 rfl rfl
  have st3 : Step c1po c1fac c1s2 c1s3 :=
    Step.feederEOF c1s2 { pos := 1, pool := c1pool } { pos := 1, pool := c1pool } rfl rfl rfl
  have st4 : Step c1po c1fac c1s3 c1s4 :=
    Step.workerRow c1s3 0 "a" 7 [] .eof rfl rfl
  have st5 : Step c1po c1fac c1s4 c1s5 :=
    Step.deliverRow c1s4 0 "a" 7 [] .eof rfl rfl
  have st6 : Step c1po c1fac c1s5 c1s6 :=
    Step.workerEOF c1s5 0 "a" rfl rfl
  have st7 : Step c1po c1fac c1s6 c1s7 :=
    Step.workerReposClosed c1s6 0 rfl rfl
  have st8 : Step c1po c1fac c1s7 c1s8 :=
    Step.joinClose c1s7 rfl (by decide)
  have st9 : Step c1po c1fac c1s8 c1s9 :=
    Step.consumerEOF c1s8 rfl rfl rfl
  exact Relation.ReflTransGen.tail
    (Relation.ReflTransGen.tail
      (Relation.ReflTransGen.tail
        (Relation.ReflTransGen.tail
          (Relation.ReflTransGen.tail
            (Relation.ReflTransGen.tail
              (Relation.ReflTransGen.tail
                (Relation.ReflTransGen.tail
                  (Relation.ReflTransGen.tail Relation.ReflTransGen.refl st1)
                  st2)
                st3)
              st4)
            st5)
          st6)
        st7)
      st8)
    st9

theorem c1_witness :
    (PipeError.eofSignal : PipeError Unit Unit) = .eofSignal ∧
    (c1s9.consumed.map Prod.snd).Perm (seqRows c1po c1fac c1pool) ∧
    (∀ pos, pos < 1 → consumedFor c1repOf c1s9.consumed pos = [7]) :=
  c1_pipeline_rows_multiset_and_order c1po c1fac c1pool 1 c1repOf (fun _ => [7])
    rfl
    (fun pos hp => by
      have hp0 : pos = 0 := by omega
      subst hp0
      rfl)
    (fun p2 q hp hq _ => by omega)
    (fun pos _ => rfl)
    1 c1s9 c1_reach .eofSignal rfl

/-!
### Worker-error run (C2)

Scenario: the same one-repository pool, one worker, and a producer that
yields no rows and then fails. In the code, the erroring worker blocks on
`i.err <- err` before `close(i.done)` and before its deferred
`wg.Done()`; the consumer's `Next` only reads from `err` after `rows`
closes, and `rows` closes only after `wg.Wait()` — which waits for the
blocked worker. The run therefore never delivers the error: the state
space below is exhaustive and the consumer stays in `consume` forever.
-/

def c2fac : Repository Unit → Except Unit (Producer Nat Unit) :=
  fun _ => .ok { rows := [], term := .err () }

def c2a0 : PState Unit Unit Nat Unit := initState Unit Unit Nat Unit c1pool 1

def c2a1 : PState Unit Unit Nat Unit :=
  { feeder := .sendRepo { ID := "a", Repo := () } { pos := 1, pool := c1pool }
  , workers := [.wait], reposClosed := false, doneClosed := false
  , rowsClosed := false, consumed := [], consumer := .consume }

def c2a2 : PState Unit Unit Nat Unit :=
  { feeder := .run { pos := 1, pool := c1pool }
  , workers := [.run "a" [] (.err ())], reposClosed := false, doneClosed := false
  , rowsClosed := false, consumed := [], consumer := .consume }

def c2a3 : PState Unit Unit Nat Unit :=
  { feeder := .run { pos := 1, pool := c1pool }
  , workers := [.sendErr ()], reposClosed := false, doneClosed := false
  , rowsClosed := false, consumed := [], consumer := .consume }

def c2a4 : PState Unit Unit Nat Unit :=
  { feeder := .sendEOF
  , workers := [.run "a" [] (.err ())], reposClosed := true, doneClosed := false
  , rowsClosed := false, consumed := [], consumer := .consume }

def c2a5 : PState Unit Unit Nat Unit :=
  { feeder := .sendEOF
  , workers := [.sendErr ()], reposClosed := true, doneClosed := false
  , rowsClosed := false, consumed := [], consumer := .consume }

/-- Exhaustive reachable-state enumeration of the worker-error run. -/
def C2Inv (s : PState Unit Unit Nat Unit) : Prop :=
  s = c2a0 ∨ s = c2a1 ∨ s = c2a2 ∨ s = c2a3 ∨ s = c2a4 ∨ s = c2a5

theorem singleton_getElem?_eq {α : Type} {a b : α} {i : Nat}
    (h : [a][i]? = some b) : i = 0 ∧ b = a := by
  cases i with
  | zero =>
    simp at h
    exact ⟨rfl, h.symm⟩
  | succ n => simp at h

theorem c2inv_step (s s2 : PState Unit Unit Nat Unit) (hs : C2Inv s)
    (hstep : Step c1po c2fac s s2) : C2Inv s2 := by
  rcases hs with rfl | rfl | rfl | rfl | rfl | rfl
  · cases hstep with
    | feederDone it hf hd => exact absurd hd (by decide)
    | feederOk it it2 r hf hd hnext =>
      have hit := FeederSt.run.inj ((show c2a0.feeder
        = FeederSt.run { pos := 0, pool := c1pool } from rfl).symm.trans hf)
      subst hit
      rw [show RepositoryIter.Next c1po { pos := 0, pool := c1pool }
        = ({ pos := 1, pool := c1pool }, Except.ok { ID := "a", Repo := () }) from rfl] at hnext
      have hit2 : ({ pos := 1, pool := c1pool } : RepositoryIter) = it2 :=
        congrArg Prod.fst hnext
      have hr : ({ ID := "a", Repo := () } : Repository Unit) = r :=
        Except.ok.inj (congrArg Prod.snd hnext)
      subst hit2
      subst hr
      exact Or.inr (Or.inl rfl)
    | feederEOF it it2 hf hd hnext =>
      have hit := FeederSt.run.inj ((show c2a0.feeder
        = FeederSt.run { pos := 0, pool := c1pool } from rfl).symm.trans hf)
      subst hit
      rw [show RepositoryIter.Next c1po { pos := 0, pool := c1pool }
        = ({ pos := 1, pool := c1pool }, Except.ok { ID := "a", Repo := () }) from rfl] at hnext
      have h5 := congrArg Prod.snd hnext
      simp at h5
    | feederErr it it2 e hf hd hnext =>
      have hit := FeederSt.run.inj ((show c2a0.feeder
        = FeederSt.run { pos := 0, pool := c1pool } from rfl).symm.trans hf)
      subst hit
      rw [show RepositoryIter.Next c1po { pos := 0, pool := c1pool }
        = ({ pos := 1, pool := c1pool }, Except.ok { ID := "a", Repo := () }) from rfl] at hnext
      have h5 := congrArg Prod.snd hnext
      simp at h5
    | feederPanic it it2 hf hd hnext =>
      have hit := FeederSt.run.inj ((show c2a0.feeder
        = FeederSt.run { pos := 0, pool := c1pool } from rfl).symm.trans hf)
      subst hit
      rw [show RepositoryIter.Next c1po { pos := 0, pool := c1pool }
        = ({ pos := 1, pool := c1pool }, Except.ok { ID := "a", Repo := () }) from rfl] at hnext
      have h5 := congrArg Prod.snd hnext
      simp at h5
    | deliverRepo r it i hf hwi =>
      exact absurd hf (by simp [c2a0, initState, RepositoryPool.RepoIter])
    | workerReposClosed i hrc hwi => exact absurd hrc (by decide)
    | workerDoneExit i rid rows t hd hwi => exact absurd hd (by decide)
    | workerRow i rid row rows t hd hwi =>
      obtain ⟨rfl, hw⟩ := singleton_getElem?_eq hwi
      simp at hw
    | workerEOF i rid hd hwi =>
      obtain ⟨rfl, hw⟩ := singleton_getElem?_eq hwi
      simp at hw
    | workerErrStart i rid e hd hwi =>
      obtain ⟨rfl, hw⟩ := singleton_getElem?_eq hwi
      simp at hw
    | workerNilOp i hwi =>
      obtain ⟨rfl, hw⟩ := singleton_getElem?_eq hwi
      simp at hw
    | deliverRow i rid row rows t hc hwi =>
      obtain ⟨rfl, hw⟩ := singleton_getElem?_eq hwi
      simp at hw
    | joinClose h0 hall =>
      exact absurd (hall .wait (by decide)) (by decide)
    | consumerEOF hc hrc hf => exact absurd hrc (by decide)
    | consumerPoolErr e hc hrc hf => exact absurd hrc (by decide)
    | consumerProdErr i e hc hrc hwi => exact absurd hrc (by decide)
    | workerCloseDone i hwi =>
      obtain ⟨rfl, hw⟩ := singleton_getElem?_eq hwi
      simp at hw
  · cases hstep with
    | feederDone it hf hd => exact absurd hd (by decide)
    | feederOk it it2 r hf hd hnext => exact absurd hf (by simp [c2a1])
    | feederEOF it it2 hf hd hnext => exact absurd hf (by simp [c2a1])
    | feederErr it it2 e hf hd hnext => exact absurd hf (by simp [c2a1])
    | feederPanic it it2 hf hd hnext => exact absurd hf (by simp [c2a1])
    | deliverRepo r it i hf hwi =>
      obtain ⟨hr, hit⟩ := FeederSt.sendRepo.inj ((show c2a1.feeder
        = FeederSt.sendRepo { ID := "a", Repo := () } { pos := 1, pool := c1pool }
          from rfl).symm.trans hf)
      subst hr
      subst hit
      obtain ⟨rfl, -⟩ := singleton_getElem?_eq hwi
      exact Or.inr (Or.inr (Or.inl rfl))
    | workerReposClosed i hrc hwi => exact absurd hrc (by decide)
    | workerDoneExit i rid rows t hd hwi => exact absurd hd (by decide)
    | workerRow i rid row rows t hd hwi =>
      obtain ⟨rfl, hw⟩ := singleton_getElem?_eq hwi
      simp at hw
    | workerEOF i rid hd hwi =>
      obtain ⟨rfl, hw⟩ := singleton_getElem?_eq hwi
      simp at hw
    | workerErrStart i rid e hd hwi =>
      obtain ⟨rfl, hw⟩ := singleton_getElem?_eq hwi
      simp at hw
    | workerNilOp i hwi =>
      obtain ⟨rfl, hw⟩ := singleton_getElem?_eq hwi
      simp at hw
    | deliverRow i rid row rows t hc hwi =>
      obtain ⟨rfl, hw⟩ := singleton_getElem?_eq hwi
      simp at hw
    | joinClose h0 hall =>
      exact absurd (hall .wait (by decide)) (by decide)
    | consumerEOF hc hrc hf => exact absurd hrc (by decide)
    | consumerPoolErr e hc hrc hf => exact absurd hrc (by decide)
    | consumerProdErr i e hc hrc hwi => exact absurd hrc (by decide)
    | workerCloseDone i hwi =>
      obtain ⟨rfl, hw⟩ := singleton_getElem?_eq hwi
      simp at hw
  · cases hstep with
    | feederDone it hf hd => exact absurd hd (by decide)
    | feederOk it it2 r hf hd hnext =>
      have hit := FeederSt.run.inj ((show c2a2.feeder
        = FeederSt.run { pos := 1, pool := c1pool } from rfl).symm.trans hf)
      subst hit
      rw [show RepositoryIter.Next c1po { pos := 1, pool := c1pool }
        = ({ pos := 1, pool := c1pool },
           (Except.error .eof : Except (PoolError Unit) (Repository Unit))) from rfl] at hnext
      have h5 := congrArg Prod.snd hnext
      simp at h5
    | feederEOF it it2 hf hd hnext =>
      have hit := FeederSt.run.inj ((show c2a2.feeder
        = FeederSt.run { pos := 1, pool := c1pool } from rfl).symm.trans hf)
      subst hit
      exact Or.inr (Or.inr (Or.inr (Or.inr (Or.inl rfl))))
    | feederErr it it2 e hf hd hnext =>
      have hit := FeederSt.run.inj ((show c2a2.feeder
        = FeederSt.run { pos := 1, pool := c1pool } from rfl).symm.trans hf)
      subst hit
      rw [show RepositoryIter.Next c1po { pos := 1, pool := c1pool }
        = ({ pos := 1, pool := c1pool },
           (Except.error .eof : Except (PoolError Unit) (Repository Unit))) from rfl] at hnext
      have h5 := congrArg Prod.snd hnext
      simp at h5
    | feederPanic it it2 hf hd hnext =>
      have hit := FeederSt.run.inj ((show c2a2.feeder
        = FeederSt.run { pos := 1, pool := c1pool } from rfl).symm.trans hf)
      subst hit
      rw [show RepositoryIter.Next c1po { pos := 1, pool := c1pool }
        = ({ pos := 1, pool := c1pool },
           (Except.error .eof : Except (PoolError Unit) (Repository Unit))) from rfl] at hnext
      have h5 := congrArg Prod.snd hnext
      simp at h5
    | deliverRepo r it i hf hwi => exact absurd hf (by simp [c2a2])
    | workerReposClosed i hrc hwi => exact absurd hrc (by decide)
    | workerDoneExit i rid rows t hd hwi => exact absurd hd (by decide)
    | workerRow i rid row rows t hd hwi =>
      obtain ⟨rfl, hw⟩ := singleton_getElem?_eq hwi
      simp at hw
    | workerEOF i rid hd hwi =>
      obtain ⟨rfl, hw⟩ := singleton_getElem?_eq hwi
      simp at hw
    | workerErrStart i rid e hd hwi =>
      obtain ⟨rfl, hw⟩ := singleton_getElem?_eq hwi
      exact Or.inr (Or.inr (Or.inr (Or.inl rfl)))
    | workerNilOp i hwi =>
      obtain ⟨rfl, hw⟩ := singleton_getElem?_eq hwi
      simp at hw
    | deliverRow i rid row rows t hc hwi =>
      obtain ⟨rfl, hw⟩ := singleton_getElem?_eq hwi
      simp at hw
    | joinClose h0 hall =>
      exact absurd (hall (.run "a" [] (.err ())) (by decide)) (by decide)
    | consumerEOF hc hrc hf => exact absurd hrc (by decide)
    | consumerPoolErr e hc hrc hf => exact absurd hrc (by decide)
    | consumerProdErr i e hc hrc hwi => exact absurd hrc (by decide)
    | workerCloseDone i hwi =>
      obtain ⟨rfl, hw⟩ := singleton_getElem?_eq hwi
      simp at hw
  · cases hstep with
    | feederDone it hf hd => exact absurd hd (by decide)
    | feederOk it it2 r hf hd hnext =>
      have hit := FeederSt.run.inj ((show c2a3.feeder
        = FeederSt.run { pos := 1, pool := c1pool } from rfl).symm.trans hf)
      subst hit
      rw [show RepositoryIter.Next c1po { pos := 1, pool := c1pool }
        = ({ pos := 1, pool := c1pool },
           (Except.error .eof : Except (PoolError Unit) (Repository Unit))) from rfl] at hnext
      have h5 := congrArg Prod.snd hnext
      simp at h5
    | feederEOF it it2 hf hd hnext =>
      have hit := FeederSt.run.inj ((show c2a3.feeder
        = FeederSt.run { pos := 1, pool := c1pool } from rfl).symm.trans hf)
      subst hit
      exact Or.inr (Or.inr (Or.inr (Or.inr (Or.inr rfl))))
    | feederErr it it2 e hf hd hnext =>
      have hit := FeederSt.run.inj ((show c2a3.feeder
        = FeederSt.run { pos := 1, pool := c1pool } from rfl).symm.trans hf)
      subst hit
      rw [show RepositoryIter.Next c1po { pos := 1, pool := c1pool }
        = ({ pos := 1, pool := c1pool },
           (Except.error .eof : Except (PoolError Unit) (Repository Unit))) from rfl] at hnext
      have h5 := congrArg Prod.snd hnext
      simp at h5
    | feederPanic it it2 hf hd hnext =>
      have hit := FeederSt.run.inj ((show c2a3.feeder
        = FeederSt.run { pos := 1, pool := c1pool } from rfl).symm.trans hf)
      subst hit
      rw [show RepositoryIter.Next c1po { pos := 1, pool := c1pool }
        = ({ pos := 1, pool := c1pool },
           (Except.error .eof : Except (PoolError Unit) (Repository Unit))) from rfl] at hnext
      have h5 := congrArg Prod.snd hnext
      simp at h5
    | deliverRepo r it i hf hwi => exact absurd hf (by simp [c2a3])
    | workerReposClosed i hrc hwi => exact absurd hrc (by decide)
    | workerDoneExit i rid rows t hd hwi => exact absurd hd (by decide)
    | workerRow i rid row rows t hd hwi =>
      obtain ⟨rfl, hw⟩ := singleton_getElem?_eq hwi
      simp at hw
    | workerEOF i rid hd hwi =>
      obtain ⟨rfl, hw⟩ := singleton_getElem?_eq hwi
      simp at hw
    | workerErrStart i rid e hd hwi =>
      obtain ⟨rfl, hw⟩ := singleton_getElem?_eq hwi
      simp at hw
    | workerNilOp i hwi =>
      obtain ⟨rfl, hw⟩ := singleton_getElem?_eq hwi
      simp at hw
    | deliverRow i rid row rows t hc hwi =>
      obtain ⟨rfl, hw⟩ := singleton_getElem?_eq hwi
      simp at hw
    | joinClose h0 hall =>
      exact absurd (hall (.sendErr ()) (by decide)) (by decide)
    | consumerEOF hc hrc hf => exact absurd hrc (by decide)
    | consumerPoolErr e hc hrc hf => exact absurd hrc (by decide)
    | consumerProdErr i e hc hrc hwi => exact absurd hrc (by decide)
    | workerCloseDone i hwi =>
      obtain ⟨rfl, hw⟩ := singleton_getElem?_eq hwi
      simp at hw
  · cases hstep with
    | feederDone it hf hd => exact absurd hd (by decide)
    | feederOk it it2 r hf hd hnext => exact absurd hf (by simp [c2a4])
    | feederEOF it it2 hf hd hnext => exact absurd hf (by simp [c2a4])
    | feederErr it it2 e hf hd hnext => exact absurd hf (by simp [c2a4])
    | feederPanic it it2 hf hd hnext => exact absurd hf (by simp [c2a4])
    | deliverRepo r it i hf hwi => exact absurd hf (by simp [c2a4])
    | workerReposClosed i hrc hwi =>
      obtain ⟨rfl, hw⟩ := singleton_getElem?_eq hwi
      simp at hw
    | workerDoneExit i rid rows t hd hwi => exact absurd hd (by decide)
    | workerRow i rid row rows t hd hwi =>
      obtain ⟨rfl, hw⟩ := singleton_getElem?_eq hwi
      simp at hw
    | workerEOF i rid hd hwi =>
      obtain ⟨rfl, hw⟩ := singleton_getElem?_eq hwi
      simp at hw
    | workerErrStart i rid e hd hwi =>
      obtain ⟨rfl, hw⟩ := singleton_getElem?_eq hwi
      exact Or.inr (Or.inr (Or.inr (Or.inr (Or.inr rfl))))
    | workerNilOp i hwi =>
      obtain ⟨rfl, hw⟩ := singleton_getElem?_eq hwi
      simp at hw
    | deliverRow i rid row rows t hc hwi =>
      obtain ⟨rfl, hw⟩ := singleton_getElem?_eq hwi
      simp at hw
    | joinClose h0 hall =>
      exact absurd (hall (.run "a" [] (.err ())) (by decide)) (by decide)
    | consumerEOF hc hrc hf => exact absurd hrc (by decide)
    | consumerPoolErr e hc hrc hf => exact absurd hrc (by decide)
    | consumerProdErr i e hc hrc hwi => exact absurd hrc (by decide)
    | workerCloseDone i hwi =>
      obtain ⟨rfl, hw⟩ := singleton_getElem?_eq hwi
      simp at hw
  · cases hstep with
    | feederDone it hf hd => exact absurd hd (by decide)
    | feederOk it it2 r hf hd hnext => exact absurd hf (by simp [c2a5])
    | feederEOF it it2 hf hd hnext => exact absurd hf (by simp [c2a5])
    | feederErr it it2 e hf hd hnext => exact absurd hf (by simp [c2a5])
    | feederPanic it it2 hf hd hnext => exact absurd hf (by simp [c2a5])
    | deliverRepo r it i hf hwi => exact absurd hf (by simp [c2a5])
    | workerReposClosed i hrc hwi =>
      obtain ⟨rfl, hw⟩ := singleton_getElem?_eq hwi
      simp at hw
    | workerDoneExit i rid rows t hd hwi => exact absurd hd (by decide)
    | workerRow i rid row rows t hd hwi =>
      obtain ⟨rfl, hw⟩ := singleton_getElem?_eq hwi
      simp at hw
    | workerEOF i rid hd hwi =>
      obtain ⟨rfl, hw⟩ := singleton_getElem?_eq hwi
      simp at hw
    | workerErrStart i rid e hd hwi =>
      obtain ⟨rfl, hw⟩ := singleton_getElem?_eq hwi
      simp at hw
    | workerNilOp i hwi =>
      obtain ⟨rfl, hw⟩ := singleton_getElem?_eq hwi
      simp at hw
    | deliverRow i rid row rows t hc hwi =>
      obtain ⟨rfl, hw⟩ := singleton_getElem?_eq hwi
      simp at hw
    | joinClose h0 hall =>
      exact absurd (hall (.sendErr ()) (by decide)) (by decide)
    | consumerEOF hc hrc hf => exact absurd hrc (by decide)
    | consumerPoolErr e hc hrc hf => exact absurd hrc (by decide)
    | consumerProdErr i e hc hrc hwi => exact absurd hrc (by decide)
    | workerCloseDone i hwi =>
      obtain ⟨rfl, hw⟩ := singleton_getElem?_eq hwi
      simp at hw

/-- C2 (recording the code defect): in the failing scenario — one valid
repository whose producer yields no rows and then errors, one worker —
the consumer's `Next` never returns at all: in every reachable state the
consumer is still consuming, so it never observes the producer's error
(nor `EndOfSequence`). The claim's promised behaviour (rows, then the
recorded terminal error) is unreachable for worker errors, because the
worker blocks sending on the unbuffered `err` channel before
`wg.Done()`, so `rows` never closes and `Next` never reads `err`.
(Feeder errors, by contrast, are delivered: the feeder closes `done` and
`repos` first, so every worker exits and `rows` closes.) -/
theorem c2_worker_error_never_reaches_consumer
    (s : PState Unit Unit Nat Unit)
    (h : Reach c1po c2fac (initState Unit Unit Nat Unit c1pool 1) s) :
    s.consumer = .consume := by
  have hinv : C2Inv s := by
    induction h with
    | refl => exact Or.inl rfl
    | tail h1 h2 ih => exact c2inv_step _ _ ih h2
  rcases hinv with rfl | rfl | rfl | rfl | rfl | rfl <;> rfl

theorem c2_reach_a5 : Reach c1po c2fac (initState Unit Unit Nat Unit c1pool 1) c2a5 := by
  have st1 : Step c1po c2fac c2a0 c2a1 :=
    Step.feederOk c2a0 { pos := 0, pool := c1pool } { pos := 1, pool := c1pool }
      { ID := "a", Repo := () } rfl rfl rfl
  have st2 : Step c1po c2fac c2a1 c2a2 :=
    Step.deliverRepo c2a1 { ID := "a", Repo := () } { pos := 1, pool := c1pool } 0 rfl rfl
  have st3 : Step c1po c2fac c2a2 c2a3 :=
    Step.workerErrStart c2a2 0 "a" () rfl rfl
  have st4 : Step c1po c2fac c2a3 c2a5 :=
    Step.feederEOF c2a3 { pos := 1, pool := c1pool } { pos := 1, pool := c1pool } rfl rfl rfl
  exact Relation.ReflTransGen.tail
    (Relation.ReflTransGen.tail
      (Relation.ReflTransGen.tail
        (Relation.ReflTransGen.tail Relation.ReflTransGen.refl st1)
        st2)
      st3)
    st4

theorem c2_witness : c2a5.consumer = .consume :=
  c2_worker_error_never_reaches_consumer c2a5 c2_reach_a5

/-!
### Discarded `NewIterator` errors (C9)

`rowReader` executes `iter, _ := i.iter.NewIterator(repo)` and then
unconditionally calls methods on `iter`: if the factory failed, `iter`
is the nil interface and the next call panics. Safety holds exactly
under the precondition that the factory never fails.
-/

/-- No worker ever holds a nil producer or has panicked. -/
def NoNilWorkers {ρ ε' : Type} (workers : List (WorkerSt ρ ε')) : Prop :=
  ∀ (i : Nat) (w : WorkerSt ρ ε'), workers[i]? = some w →
    w ≠ .nilProducer ∧ w ≠ .panicked

theorem c9_noNil_step {γ ε ρ ε' : Type} {plainOpen : String → Except ε γ}
    {factory : Repository γ → Except ε' (Producer ρ ε')}
    (hfac : ∀ r, ∃ p, factory r = .ok p)
    {s s2 : PState γ ε ρ ε'} (hs : NoNilWorkers s.workers)
    (hstep : Step plainOpen factory s s2) : NoNilWorkers s2.workers := by
  have hset : ∀ (i : Nat) (w2 : WorkerSt ρ ε'), w2 ≠ .nilProducer → w2 ≠ .panicked →
      NoNilWorkers (s.workers.set i w2) := by
    intro i w2 h1 h2 j w hj
    by_cases hij : i = j
    · subst hij
      by_cases hlen : i < s.workers.length
      · rw [List.getElem?_set_self hlen] at hj
        cases hj
        exact ⟨h1, h2⟩
      · rw [List.set_eq_of_length_le (by omega)] at hj
        exact hs i w hj
    · rw [List.getElem?_set_ne hij] at hj
      exact hs j w hj
  cases hstep with
  | feederDone it hf hd => exact hs
  | feederOk it it2 r hf hd hnext => exact hs
  | feederEOF it it2 hf hd hnext => exact hs
  | feederErr it it2 e hf hd hnext => exact hs
  | feederPanic it it2 hf hd hnext => exact hs
  | deliverRepo r it i hf hwi =>
    obtain ⟨p, hp⟩ := hfac r
    have hrecv : recvWorker factory r = .run r.ID p.rows p.term := by
      unfold recvWorker
      rw [hp]
    dsimp only
    rw [hrecv]
    exact hset i _ (by simp) (by simp)
  | workerReposClosed i hrc hwi => exact hset i _ (by simp) (by simp)
  | workerDoneExit i rid rows t hd hwi => exact hset i _ (by simp) (by simp)
  | workerRow i rid row rows t hd hwi => exact hset i _ (by simp) (by simp)
  | workerEOF i rid hd hwi => exact hset i _ (by simp) (by simp)
  | workerErrStart i rid e hd hwi => exact hset i _ (by simp) (by simp)
  | workerNilOp i hwi => exact absurd rfl (hs i _ hwi).1
  | deliverRow i rid row rows t hc hwi => exact hset i _ (by simp) (by simp)
  | joinClose h0 hall => exact hs
  | consumerEOF hc hrc hf => exact hs
  | consumerPoolErr e hc hrc hf => exact hs
  | consumerProdErr i e hc hrc hwi => exact hset i _ (by simp) (by simp)
  | workerCloseDone i hwi => exact hset i _ (by simp) (by simp)

theorem c9_safety {γ ε ρ ε' : Type} (plainOpen : String → Except ε γ)
    (factory : Repository γ → Except ε' (Producer ρ ε'))
    (hfac : ∀ r, ∃ p, factory r = .ok p)
    (pool : RepositoryPool) (W : Nat) (s : PState γ ε ρ ε')
    (h : Reach plainOpen factory (initState γ ε ρ ε' pool W) s) :
    NoNilWorkers s.workers := by
  induction h with
  | refl =>
    intro i w hw
    have hww : w = .wait := List.eq_of_mem_replicate (List.getElem?_mem hw)
    subst hww
    exact ⟨by simp, by simp⟩
  | tail h1 h2 ih => exact c9_noNil_step hfac ih h2

def c9fac : Repository Unit → Except Unit (Producer Nat Unit) :=
  fun _ => .error ()

def c9b2 : PState Unit Unit Nat Unit :=
  { feeder := .run { pos := 1, pool := c1pool }
  , workers := [.nilProducer], reposClosed := false, doneClosed := false
  , rowsClosed := false, consumed := [], consumer := .consume }

def c9b3 : PState Unit Unit Nat Unit :=
  { feeder := .run { pos := 1, pool := c1pool }
  , workers := [.panicked], reposClosed := false, doneClosed := false
  , rowsClosed := false, consumed := [], consumer := .consume }

/-- C9: a worker discards any error from the factory's `NewIterator` and
proceeds to call the returned (nil) producer. First conjunct: if the
factory never fails, no reachable state has a worker with a nil producer
or a panic. Second conjunct: with an always-failing factory, a state
with a nil-producer worker is reachable, and its next operation on that
producer is the panic — so the safety guarantee holds only under the
precondition. -/
theorem c9_worker_ignores_newIterator_error :
    (∀ {γ ε ρ ε' : Type} (plainOpen : String → Except ε γ)
       (factory : Repository γ → Except ε' (Producer ρ ε')),
       (∀ r, ∃ p, factory r = .ok p) →
       ∀ (pool : RepositoryPool) (W : Nat) (s : PState γ ε ρ ε'),
         Reach plainOpen factory (initState γ ε ρ ε' pool W) s →
         ∀ (i : Nat) (w : WorkerSt ρ ε'), s.workers[i]? = some w →
           w ≠ .nilProducer ∧ w ≠ .panicked) ∧
    (Reach c1po c9fac (initState Unit Unit Nat Unit c1pool 1) c9b2 ∧
     c9b2.workers[0]? = some .nilProducer ∧
     Step c1po c9fac c9b2 c9b3 ∧
     c9b3.workers[0]? = some .panicked) := by
  constructor
  · intro γ ε ρ ε' plainOpen factory hfac pool W s hreach i w hw
    exact c9_safety plainOpen factory hfac pool W s hreach i w hw
  · refine ⟨?_, rfl, Step.workerNilOp c9b2 0 rfl, rfl⟩
    have st1 : Step c1po c9fac c2a0 c2a1 :=
      Step.feederOk c2a0 { pos := 0, pool := c1pool } { pos := 1, pool := c1pool }
        { ID := "a", Repo := () } rfl rfl rfl
    have st2 : Step c1po c9fac c2a1 c9b2 :=
      Step.deliverRepo c2a1 { ID := "a", Repo := () } { pos := 1, pool := c1pool } 0 rfl rfl
    exact Relation.ReflTransGen.tail
      (Relation.ReflTransGen.tail Relation.ReflTransGen.refl st1)
      st2

theorem c9_witness :
    (WorkerSt.wait : WorkerSt Nat Unit) ≠ .nilProducer ∧
    (WorkerSt.wait : WorkerSt Nat Unit) ≠ .panicked :=
  c9_worker_ignores_newIterator_error.1 c1po c1fac (fun r => ⟨_, rfl⟩)
    c1pool 1 (initState Unit Unit Nat Unit c1pool 1) Relation.ReflTransGen.refl
    0 .wait rfl

end Gitquery
